import Mathlib

/-
  Verification development for the Azure-DevOps-wiki-to-Confluence migration tool.

  The JavaScript sources are shallowly embedded as Lean functions operating on
  `List Char` / `String`.  Strings model JS strings (ASCII and BMP content),
  fallible JS operations (decodeURIComponent) return `Option`, and JS objects
  used as maps are modelled as association lists.  Each definition carries a
  comment naming the source file and function it embeds.
-/

namespace A2C

/-! ### JavaScript string primitives -/

/-- The character class matched by the JS regex `\s` and removed by
`String.prototype.trim` (ECMAScript WhiteSpace plus LineTerminator). -/
def isJsWs (c : Char) : Bool :=
  let n := c.toNat
  n = 32 ∨ n = 9 ∨ n = 10 ∨ n = 11 ∨ n = 12 ∨ n = 13 ∨ n = 160 ∨ n = 0x1680 ∨
  (0x2000 ≤ n ∧ n ≤ 0x200A) ∨ n = 0x2028 ∨ n = 0x2029 ∨ n = 0x202F ∨
  n = 0x205F ∨ n = 0x3000 ∨ n = 0xFEFF

/-- JS `String.prototype.trim` on a character list. -/
def jsTrimL (l : List Char) : List Char :=
  ((l.dropWhile isJsWs).reverse.dropWhile isJsWs).reverse

/-- JS `String.prototype.trim`. -/
def jsTrim (s : String) : String := String.mk (jsTrimL s.data)

/-- Value of a hexadecimal digit character, if any. -/
def hexVal (c : Char) : Option Nat :=
  if '0' ≤ c ∧ c ≤ '9' then some (c.toNat - 48)
  else if 'a' ≤ c ∧ c ≤ 'f' then some (c.toNat - 87)
  else if 'A' ≤ c ∧ c ≤ 'F' then some (c.toNat - 55)
  else none

/-- Parse one `%XX` escape, returning the byte value and the remaining input. -/
def pct2 : List Char → Option (Nat × List Char)
  | '%' :: h1 :: h2 :: rest =>
    match hexVal h1, hexVal h2 with
    | some v1, some v2 => some (16 * v1 + v2, rest)
    | _, _ => none
  | _ => none

/-- Fuel-indexed model of ECMAScript `decodeURIComponent`: literal characters
pass through, `%XX` escapes are decoded as strict UTF-8 byte sequences
(continuation bytes must themselves be `%XX` escapes), and any malformed
escape or byte sequence throws `URIError` (modelled by `none`).  The fuel is
instantiated with the input length, which every branch strictly decreases. -/
def decodeAux : Nat → List Char → Option (List Char)
  | 0, [] => some []
  | 0, _ :: _ => none
  | _ + 1, [] => some []
  | fuel + 1, c :: rest =>
    if c = '%' then
      match pct2 (c :: rest) with
      | none => none
      | some (b, r1) =>
        if b < 128 then (decodeAux fuel r1).map (Char.ofNat b :: ·)
        else if 194 ≤ b ∧ b ≤ 223 then
          match pct2 r1 with
          | some (b2, r2) =>
            if 128 ≤ b2 ∧ b2 ≤ 191 then
              (decodeAux fuel r2).map (Char.ofNat ((b - 192) * 64 + (b2 - 128)) :: ·)
            else none
          | none => none
        else if 224 ≤ b ∧ b ≤ 239 then
          match pct2 r1 with
          | some (b2, r2) =>
            if (if b = 224 then 160 else 128) ≤ b2 ∧ b2 ≤ (if b = 237 then 159 else 191) then
              match pct2 r2 with
              | some (b3, r3) =>
                if 128 ≤ b3 ∧ b3 ≤ 191 then
                  (decodeAux fuel r3).map
                    (Char.ofNat ((b - 224) * 4096 + (b2 - 128) * 64 + (b3 - 128)) :: ·)
                else none
              | none => none
            else none
          | none => none
        else if 240 ≤ b ∧ b ≤ 244 then
          match pct2 r1 with
          | some (b2, r2) =>
            if (if b = 240 then 144 else 128) ≤ b2 ∧ b2 ≤ (if b = 244 then 143 else 191) then
              match pct2 r2 with
              | some (b3, r3) =>
                if 128 ≤ b3 ∧ b3 ≤ 191 then
                  match pct2 r3 with
                  | some (b4, r4) =>
                    if 128 ≤ b4 ∧ b4 ≤ 191 then
                      (decodeAux fuel r4).map
                        (Char.ofNat ((b - 240) * 262144 + (b2 - 128) * 4096 +
                          (b3 - 128) * 64 + (b4 - 128)) :: ·)
                    else none
                  | none => none
                else none
              | none => none
            else none
          | none => none
        else none
    else (decodeAux fuel rest).map (c :: ·)

/-- `decodeURIComponent` on character lists. -/
def decodeURICompL (l : List Char) : Option (List Char) := decodeAux l.length l

/-- `decodeURIComponent` on strings; `none` models a thrown `URIError`. -/
def decodeURIComp (s : String) : Option String :=
  (decodeURICompL s.data).map String.mk

/-- The `try { decodeURIComponent } catch { use original }` pattern that both
title-cleaning functions use. -/
def jsDecodeOr (s : String) : String := (decodeURIComp s).getD s

/-! ### The two title-cleaning pipelines (claim C1)

Both functions consist of the same steps in the same order; they are kept as
two separate definitions, each traced from its own source location. -/

/-- Step `.replace(/[\\/]/g, '-')`. -/
def replaceSlashes (l : List Char) : List Char :=
  l.map fun c => if c = '\\' ∨ c = '/' then '-' else c

/-- Step `.replace(/[<>:"|?*]/g, '_')`. -/
def replaceIllegal (l : List Char) : List Char :=
  l.map fun c =>
    if c = '<' ∨ c = '>' ∨ c = ':' ∨ c = '"' ∨ c = '|' ∨ c = '?' ∨ c = '*' then '_' else c

/-- Step `.replace(/%/g, '-')`. -/
def replacePct (l : List Char) : List Char :=
  l.map fun c => if c = '%' then '-' else c

/-- Step `.replace(/&/g, 'and')`. -/
def replaceAmp : List Char → List Char
  | [] => []
  | c :: r => (if c = '&' then ['a', 'n', 'd'] else [c]) ++ replaceAmp r

/-- Step `.replace(/\+/g, ' ')`. -/
def replacePlus (l : List Char) : List Char :=
  l.map fun c => if c = '+' then ' ' else c

/-- The five-step replacement chain shared (textually) by both pipelines. -/
def titleReplaceChain (l : List Char) : List Char :=
  replacePlus (replaceAmp (replacePct (replaceIllegal (replaceSlashes l))))

/-- `sanitizeTitle` from `src/confluence/wikiParser.js` (lines 69-98): empty
title short-circuits; otherwise URL-decode with fallback to the original,
apply the replacement chain, and trim.  (The outer catch-fallback in the
source is unreachable: none of the string operations throws.) -/
def sanitizeTitle (title : String) : String :=
  if title = "" then ""
  else
    let decodedTitle := jsDecodeOr title
    String.mk (jsTrimL (titleReplaceChain decodedTitle.data))

/-- `mapWikiTitleToConfluence` from `src/confluence/pageCreator.js`
(lines 997-1016): empty title short-circuits; otherwise URL-decode with
fallback to the original, apply the replacement chain, and trim. -/
def mapWikiTitleToConfluence (wikiTitle : String) : String :=
  if wikiTitle = "" then ""
  else
    let decodedTitle := jsDecodeOr wikiTitle
    String.mk (jsTrimL (titleReplaceChain decodedTitle.data))

/-- C1: the Validator's `sanitizeTitle` and the Transformer's
`mapWikiTitleToConfluence` compute the same function. -/
theorem C1_sanitizeTitle_eq_mapWikiTitleToConfluence :
    ∀ t : String, sanitizeTitle t = mapWikiTitleToConfluence t :=
  fun _ => rfl


/-! ### Supporting lemmas about the title pipeline -/

/-- Characters eliminated by the replacement chain. -/
def isBadTitleChar (c : Char) : Bool :=
  c = '\\' ∨ c = '/' ∨ c = '<' ∨ c = '>' ∨ c = ':' ∨ c = '"' ∨ c = '|' ∨
  c = '?' ∨ c = '*' ∨ c = '%' ∨ c = '&' ∨ c = '+'

theorem map_eq_self_of_mem {f : Char → Char} :
    ∀ {l : List Char}, (∀ c ∈ l, f c = c) → l.map f = l := by
  intro l h
  induction l with
  | nil => rfl
  | cons a r ih =>
    simp only [List.map_cons, h a (by simp)]
    rw [ih (fun c hc => h c (by simp [hc]))]

theorem mem_ite_map {P : Char → Prop} [DecidablePred P] {rep c : Char} {l : List Char}
    (h : c ∈ l.map fun a => if P a then rep else a) :
    c = rep ∨ (c ∈ l ∧ ¬ P c) := by
  rcases List.mem_map.1 h with ⟨x, hx, hfx⟩
  by_cases hp : P x
  · rw [if_pos hp] at hfx
    exact Or.inl hfx.symm
  · rw [if_neg hp] at hfx
    subst hfx
    exact Or.inr ⟨hx, hp⟩

theorem mem_replaceAmp {c : Char} :
    ∀ {l : List Char}, c ∈ replaceAmp l →
      c = 'a' ∨ c = 'n' ∨ c = 'd' ∨ (c ∈ l ∧ c ≠ '&') := by
  intro l h
  induction l with
  | nil => simp [replaceAmp] at h
  | cons x r ih =>
    simp only [replaceAmp, List.mem_append] at h
    rcases h with h | h
    · by_cases hx : x = '&'
      · rw [if_pos hx] at h
        simp only [List.mem_cons, List.not_mem_nil, or_false] at h
        rcases h with h | h | h
        · exact Or.inl h
        · exact Or.inr (Or.inl h)
        · exact Or.inr (Or.inr (Or.inl h))
      · rw [if_neg hx, List.mem_singleton] at h
        subst h
        exact Or.inr (Or.inr (Or.inr ⟨List.mem_cons_self _ _, hx⟩))
    · rcases ih h with h | h | h | ⟨h1, h2⟩
      · exact Or.inl h
      · exact Or.inr (Or.inl h)
      · exact Or.inr (Or.inr (Or.inl h))
      · exact Or.inr (Or.inr (Or.inr ⟨List.mem_cons_of_mem _ h1, h2⟩))

theorem replaceAmp_eq_self :
    ∀ {l : List Char}, (∀ c ∈ l, c ≠ '&') → replaceAmp l = l := by
  intro l h
  induction l with
  | nil => rfl
  | cons x r ih =>
    have hx : x ≠ '&' := h x (by simp)
    simp only [replaceAmp, if_neg hx, List.singleton_append]
    rw [ih (fun c hc => h c (by simp [hc]))]

theorem mem_titleReplaceChain {c : Char} {l : List Char}
    (h : c ∈ titleReplaceChain l) : isBadTitleChar c = false := by
  unfold titleReplaceChain replacePlus at h
  rcases mem_ite_map h with rfl | ⟨h, hplus⟩
  · decide
  rcases mem_replaceAmp h with rfl | rfl | rfl | ⟨h, hamp⟩
  · decide
  · decide
  · decide
  unfold replacePct at h
  rcases mem_ite_map h with rfl | ⟨h, hpct⟩
  · decide
  unfold replaceIllegal at h
  rcases mem_ite_map h with rfl | ⟨h, hill⟩
  · decide
  unfold replaceSlashes at h
  rcases mem_ite_map h with rfl | ⟨h, hsl⟩
  · decide
  simp only [isBadTitleChar, decide_eq_false_iff_not, not_or]
  push_neg at hsl hill
  exact ⟨hsl.1, hsl.2, hill.1, hill.2.1, hill.2.2.1, hill.2.2.2.1, hill.2.2.2.2.1,
    hill.2.2.2.2.2.1, hill.2.2.2.2.2.2, hpct, hamp, hplus⟩

theorem titleReplaceChain_eq_self {l : List Char}
    (h : ∀ c ∈ l, isBadTitleChar c = false) : titleReplaceChain l = l := by
  have hgen : ∀ c ∈ l, ¬(c = '\\') ∧ ¬(c = '/') ∧ ¬(c = '<') ∧ ¬(c = '>') ∧ ¬(c = ':') ∧
      ¬(c = '"') ∧ ¬(c = '|') ∧ ¬(c = '?') ∧ ¬(c = '*') ∧ ¬(c = '%') ∧ ¬(c = '&') ∧
      ¬(c = '+') := by
    intro c hc
    have hbad := h c hc
    simp only [isBadTitleChar, decide_eq_false_iff_not, not_or] at hbad
    exact hbad
  unfold titleReplaceChain
  rw [show replaceSlashes l = l from map_eq_self_of_mem
        (fun c hc => by obtain ⟨h1, h2, _⟩ := hgen c hc; simp [h1, h2]),
      show replaceIllegal l = l from map_eq_self_of_mem
        (fun c hc => by obtain ⟨_, _, h3, h4, h5, h6, h7, h8, h9, _⟩ := hgen c hc
                        simp [h3, h4, h5, h6, h7, h8, h9]),
      show replacePct l = l from map_eq_self_of_mem
        (fun c hc => by obtain ⟨_, _, _, _, _, _, _, _, _, h10, _⟩ := hgen c hc; simp [h10]),
      show replaceAmp l = l from replaceAmp_eq_self
        (fun c hc => (hgen c hc).2.2.2.2.2.2.2.2.2.2.1),
      show replacePlus l = l from map_eq_self_of_mem
        (fun c hc => by
          have h12 := (hgen c hc).2.2.2.2.2.2.2.2.2.2.2
          simp [h12])]

theorem decodeAux_no_pct :
    ∀ (fuel : Nat) (l : List Char), (∀ c ∈ l, c ≠ '%') → l.length ≤ fuel →
      decodeAux fuel l = some l := by
  intro fuel
  induction fuel with
  | zero =>
    intro l h hl
    cases l with
    | nil => rfl
    | cons c r => simp at hl
  | succ f ih =>
    intro l h hl
    cases l with
    | nil => rfl
    | cons c r =>
      have hc : ¬(c = '%') := h c (by simp)
      simp only [decodeAux, if_neg hc]
      rw [ih r (fun x hx => h x (by simp [hx])) (by simpa using Nat.le_of_succ_le_succ hl)]
      rfl

theorem jsTrimL_subset {c : Char} {l : List Char} (h : c ∈ jsTrimL l) : c ∈ l := by
  unfold jsTrimL at h
  rw [List.mem_reverse] at h
  have h1 := (List.dropWhile_suffix (l := (l.dropWhile isJsWs).reverse) isJsWs).mem h
  rw [List.mem_reverse] at h1
  exact (List.dropWhile_suffix isJsWs).mem h1

theorem dropWhile_eq_self_of_head {p : Char → Bool} :
    ∀ {l : List Char}, (∀ c, l.head? = some c → p c = false) → l.dropWhile p = l := by
  intro l h
  cases l with
  | nil => rfl
  | cons c r => simp [List.dropWhile_cons, h c rfl]

theorem head?_dropWhile_not {p : Char → Bool} {l : List Char} {c : Char}
    (h : (l.dropWhile p).head? = some c) : p c = false := by
  induction l with
  | nil => simp [List.dropWhile] at h
  | cons x r ih =>
    by_cases hp : p x
    · rw [List.dropWhile_cons, if_pos hp] at h
      exact ih h
    · rw [List.dropWhile_cons, if_neg hp, List.head?_cons, Option.some_inj] at h
      subst h
      simpa using hp

theorem getLast?_dropWhile {p : Char → Bool} :
    ∀ {l : List Char}, l.dropWhile p ≠ [] → (l.dropWhile p).getLast? = l.getLast? := by
  intro l h
  induction l with
  | nil => simp [List.dropWhile] at h
  | cons x r ih =>
    by_cases hp : p x
    · rw [List.dropWhile_cons, if_pos hp] at h ⊢
      rw [ih h]
      cases r with
      | nil =>
        exfalso
        simp [List.dropWhile] at h
      | cons y ry => rfl
    · rw [List.dropWhile_cons, if_neg hp]

theorem jsTrimL_idempotent (l : List Char) : jsTrimL (jsTrimL l) = jsTrimL l := by
  have step1 : (jsTrimL l).dropWhile isJsWs = jsTrimL l := by
    apply dropWhile_eq_self_of_head
    intro c hc
    unfold jsTrimL at hc
    rw [List.head?_reverse] at hc
    have hSne : (List.dropWhile isJsWs (l.dropWhile isJsWs).reverse) ≠ [] := by
      intro hnil
      rw [hnil] at hc
      simp at hc
    rw [getLast?_dropWhile hSne, List.getLast?_reverse] at hc
    exact head?_dropWhile_not hc
  have step2 : (jsTrimL l).reverse.dropWhile isJsWs = (jsTrimL l).reverse := by
    unfold jsTrimL
    rw [List.reverse_reverse, List.dropWhile_idempotent]
  show ((((jsTrimL l).dropWhile isJsWs).reverse).dropWhile isJsWs).reverse = jsTrimL l
  rw [step1, step2, List.reverse_reverse]

/-- Unfolding of `mapWikiTitleToConfluence` on non-empty input. -/
theorem mapWiki_expand {s : String} (hs : s ≠ "") :
    mapWikiTitleToConfluence s =
      String.mk (jsTrimL (titleReplaceChain (jsDecodeOr s).data)) := by
  unfold mapWikiTitleToConfluence
  rw [if_neg hs]

/-- The output of `mapWikiTitleToConfluence` contains none of the characters
the chain eliminates. -/
theorem mapWiki_no_bad {t : String} {c : Char}
    (h : c ∈ (mapWikiTitleToConfluence t).data) : isBadTitleChar c = false := by
  by_cases ht : t = ""
  · simp [mapWikiTitleToConfluence, ht] at h
  · rw [mapWiki_expand ht] at h
    exact mem_titleReplaceChain (jsTrimL_subset h)

/-- `mapWikiTitleToConfluence` is idempotent: its outputs are fixed points. -/
theorem mapWiki_idempotent (t : String) :
    mapWikiTitleToConfluence (mapWikiTitleToConfluence t) = mapWikiTitleToConfluence t := by
  by_cases hyEmpty : mapWikiTitleToConfluence t = ""
  · rw [hyEmpty]
    decide
  · have hnb : ∀ c ∈ (mapWikiTitleToConfluence t).data, isBadTitleChar c = false :=
      fun c hc => mapWiki_no_bad hc
    have hnp : ∀ c ∈ (mapWikiTitleToConfluence t).data, c ≠ '%' := by
      intro c hc hcp
      have hbad := hnb c hc
      rw [hcp] at hbad
      simp [isBadTitleChar] at hbad
    have hdecOr : jsDecodeOr (mapWikiTitleToConfluence t) = mapWikiTitleToConfluence t := by
      unfold jsDecodeOr decodeURIComp decodeURICompL
      rw [decodeAux_no_pct _ _ hnp (Nat.le_refl _)]
      rfl
    have htne : t ≠ "" := by
      intro h0
      apply hyEmpty
      rw [h0]
      decide
    have htrim : jsTrimL (mapWikiTitleToConfluence t).data =
        (mapWikiTitleToConfluence t).data := by
      have hdata : (mapWikiTitleToConfluence t).data =
          jsTrimL (titleReplaceChain (jsDecodeOr t).data) := by
        rw [mapWiki_expand htne]
      rw [hdata, jsTrimL_idempotent]
    rw [mapWiki_expand hyEmpty, hdecOr, titleReplaceChain_eq_self hnb, htrim]

/-! ### Claim C2: Phase-1 registration keys vs. link-resolution lookup keys -/

/-- A parsed wiki page as handled by `createConfluencePages`
(`src/confluence/pageCreator.js`). -/
structure WPage where
  title : String
  content : String := ""
  path : String := ""
  children : List WPage := []
deriving Repr

/-- JS object property update (`pageIdMap[k] = v`): overwrites an existing
key in place, otherwise appends. -/
def updAssoc (m : List (String × Nat)) (k : String) (v : Nat) : List (String × Nat) :=
  match m with
  | [] => [(k, v)]
  | (k1, v1) :: r => if k1 = k then (k, v) :: r else (k1, v1) :: updAssoc r k v

/-- JS object property read (`pageIdMap[t]`). -/
def lookupS : List (String × Nat) → String → Option Nat
  | [], _ => none
  | (k, v) :: r, t => if t = k then some v else lookupS r t

/-- Phase 1, `processALLPages` (`src/confluence/pageCreator.js` lines 143-192)
under an always-succeeding client handing out sequential page ids: each page is
created and then registered via `pageIdMap[page.title] = pageId` — the key is
the raw parsed title — before its children are processed. -/
def processALLPages (fresh : Nat) (m : List (String × Nat)) :
    List WPage → Nat × List (String × Nat)
  | [] => (fresh, m)
  | p :: ps =>
    let m1 := updAssoc m p.title fresh
    let r := processALLPages (fresh + 1) m1 p.children
    processALLPages r.1 r.2 ps
termination_by ps => sizeOf ps
decreasing_by
  · cases p with
    | mk a b c d =>
      show sizeOf d < sizeOf (WPage.mk a b c d :: ps)
      simp only [List.cons.sizeOf_spec, WPage.mk.sizeOf_spec]
      omega
  · simp only [List.cons.sizeOf_spec]
    omega

/-- All raw titles of a page forest, in traversal order. -/
def collectTitles : List WPage → List String
  | [] => []
  | p :: ps => p.title :: (collectTitles p.children ++ collectTitles ps)
termination_by ps => sizeOf ps
decreasing_by
  · cases p with
    | mk a b c d =>
      show sizeOf d < sizeOf (WPage.mk a b c d :: ps)
      simp only [List.cons.sizeOf_spec, WPage.mk.sizeOf_spec]
      omega
  · simp only [List.cons.sizeOf_spec]
    omega

/-- Link-resolution lookup shared by all three link dialects in
`processConfluenceLinks` (`src/confluence/pageCreator.js` lines 713-714,
732-733, 755-756, 770-771): the link target is first passed through
`mapWikiTitleToConfluence` and only then looked up in `pageIdMap`. -/
def linkLookup (m : List (String × Nat)) (pageName : String) : Option Nat :=
  lookupS m (mapWikiTitleToConfluence pageName)

/-- The replacement emitted for a simple wiki-style link `[[Page Name]]`
(`src/confluence/pageCreator.js` lines 727-744). -/
def resolveSimpleWikiLink (baseUrl space : String) (m : List (String × Nat))
    (pageName : String) : String :=
  let confluenceTitle := mapWikiTitleToConfluence pageName
  match lookupS m confluenceTitle with
  | some targetPageId =>
      "[" ++ pageName ++ "](" ++ baseUrl ++ "/wiki/spaces/" ++ space ++ "/pages/" ++
        toString targetPageId ++ ")"
  | none => "[" ++ pageName ++ "](#" ++ confluenceTitle ++ ")"

theorem lookupS_updAssoc (m : List (String × Nat)) (k : String) (v : Nat) (t : String) :
    lookupS (updAssoc m k v) t = if t = k then some v else lookupS m t := by
  induction m with
  | nil => simp [updAssoc, lookupS]
  | cons hd r ih =>
    obtain ⟨k1, v1⟩ := hd
    by_cases hk : k1 = k
    · subst hk
      by_cases ht : t = k1 <;> simp [updAssoc, lookupS, ht]
    · simp only [updAssoc, if_neg hk, lookupS]
      rw [ih]
      by_cases ht : t = k1
      · have htk : ¬(t = k) := by
          rw [ht]
          exact hk
        simp [ht, htk, hk]
      · simp [ht]

theorem processALLPages_lookup (T : String) :
    ∀ (n : Nat) (ps : List WPage) (fresh : Nat) (m : List (String × Nat)),
      sizeOf ps ≤ n →
      ((lookupS (processALLPages fresh m ps).2 T).isSome ↔
        (T ∈ collectTitles ps ∨ (lookupS m T).isSome)) := by
  intro n
  induction n with
  | zero =>
    intro ps fresh m hsz
    cases ps with
    | nil => simp [processALLPages, collectTitles]
    | cons p ps1 =>
      exfalso
      have := List.cons.sizeOf_spec p ps1
      omega
  | succ n ih =>
    intro ps fresh m hsz
    cases ps with
    | nil => simp [processALLPages, collectTitles]
    | cons p ps1 =>
      have hsize : sizeOf p.children ≤ n ∧ sizeOf ps1 ≤ n := by
        cases p with
        | mk a b c d =>
          simp only [List.cons.sizeOf_spec, WPage.mk.sizeOf_spec] at hsz
          constructor
          · show sizeOf d ≤ n
            omega
          · omega
      simp only [processALLPages]
      rw [ih ps1 _ _ hsize.2, ih p.children _ _ hsize.1, lookupS_updAssoc]
      simp only [collectTitles, List.mem_cons, List.mem_append]
      by_cases hT : T = p.title
      · simp [hT]
      · rw [if_neg hT]
        tauto

/-! ### Claim C3: link transformation of the three cross-page dialects -/

/-- JS `String.prototype.includes` on character lists. -/
def containsSubL (pat : List Char) : List Char → Bool
  | [] => pat.isPrefixOf []
  | c :: r => pat.isPrefixOf (c :: r) || containsSubL pat r

/-- JS `s.includes(pat)`. -/
def strIncludes (s pat : String) : Bool := containsSubL pat.data s.data

/-- JS `s.startsWith(pre)` (kept kernel-reducible, unlike core
`String.startsWith`). -/
def strStartsWith (s pre : String) : Bool := pre.data.isPrefixOf s.data

/-- JS `url.split('/').pop()`: the substring after the last `/`. -/
def splitLastSegment (u : String) : String :=
  String.mk ((u.data.reverse.takeWhile fun c => ¬(c = '/')).reverse)

/-- Leftmost match of `\[\[([^|\]]+)\|([^\]]+)\]\]` at the head of the input:
page name, display text, rest.  The greedy character classes make the regex
deterministic, so plain longest-run parsing is exact. -/
def tryWikiDispLink : List Char → Option (String × String × List Char)
  | '[' :: '[' :: r =>
    let a := r.takeWhile fun c => ¬(c = '|' ∨ c = ']')
    match a, r.drop a.length with
    | _ :: _, '|' :: r2 =>
      let b := r2.takeWhile fun c => ¬(c = ']')
      match b, r2.drop b.length with
      | _ :: _, ']' :: ']' :: r4 => some (String.mk a, String.mk b, r4)
      | _, _ => none
    | _, _ => none
  | _ => none

/-- Leftmost match of `\[\[([^\]|]+)\]\]` at the head of the input. -/
def tryWikiSimpleLink : List Char → Option (String × List Char)
  | '[' :: '[' :: r =>
    let a := r.takeWhile fun c => ¬(c = ']' ∨ c = '|')
    match a, r.drop a.length with
    | _ :: _, ']' :: ']' :: r2 => some (String.mk a, r2)
    | _, _ => none
  | _ => none

/-- Leftmost match of `\[([^\]]+)\]\(([^)]+)\)` at the head of the input:
link text, url, rest. -/
def tryMdLink : List Char → Option (String × String × List Char)
  | '[' :: r =>
    let t := r.takeWhile fun c => ¬(c = ']')
    match t, r.drop t.length with
    | _ :: _, ']' :: '(' :: r2 =>
      let u := r2.takeWhile fun c => ¬(c = ')')
      match u, r2.drop u.length with
      | _ :: _, ')' :: r3 => some (String.mk t, String.mk u, r3)
      | _, _ => none
    | _, _ => none
  | _ => none

/-- `String.prototype.replace(regex-g, cb)`: scan left to right, replace each
leftmost match and continue after it, never rescanning replacements.  Fuel is
the input length; every step consumes at least one character. -/
def scanRepl (tryM : List Char → Option (String × List Char)) :
    Nat → List Char → List Char
  | 0, l => l
  | _ + 1, [] => []
  | fuel + 1, c :: rest =>
    match tryM (c :: rest) with
    | some (rep, r2) => rep.data ++ scanRepl tryM fuel r2
    | none => c :: scanRepl tryM fuel rest

/-- One global replace pass over a whole string. -/
def replaceAllMatches (tryM : List Char → Option (String × List Char))
    (l : List Char) : List Char :=
  scanRepl tryM l.length l

/-- Callback for `[[Page Name|Display Text]]`
(`src/confluence/pageCreator.js` lines 708-725). -/
def wikiDispCb (baseUrl space : String) (m : List (String × Nat))
    (pageName displayText : String) : String :=
  let confluenceTitle := mapWikiTitleToConfluence pageName
  match lookupS m confluenceTitle with
  | some targetPageId =>
      "[" ++ displayText ++ "](" ++ baseUrl ++ "/wiki/spaces/" ++ space ++ "/pages/" ++
        toString targetPageId ++ ")"
  | none => "[" ++ displayText ++ "](#" ++ confluenceTitle ++ ")"

/-- Callback for standard Markdown links `[text](url)`
(`src/confluence/pageCreator.js` lines 746-785): external URLs pass through,
except Azure `_wiki` URLs which are rewritten only when the resolved title is
mapped (otherwise the original match is returned unchanged); root-relative
non-attachment paths resolve through the map with an anchor fallback. -/
def mdLinkCb (baseUrl space : String) (m : List (String × Nat))
    (text url : String) : String :=
  if strStartsWith url "http://" ∨ strStartsWith url "https://" then
    if strIncludes url "_wiki" then
      let pageName := splitLastSegment url
      let confluenceTitle := mapWikiTitleToConfluence pageName
      match lookupS m confluenceTitle with
      | some targetPageId =>
          "[" ++ text ++ "](" ++ baseUrl ++ "/wiki/spaces/" ++ space ++ "/pages/" ++
            toString targetPageId ++ ")"
      | none => "[" ++ text ++ "](" ++ url ++ ")"
    else "[" ++ text ++ "](" ++ url ++ ")"
  else if strStartsWith url "/" ∧ ¬(strIncludes url ".attachments") then
    let pageName := splitLastSegment url
    let confluenceTitle := mapWikiTitleToConfluence pageName
    match lookupS m confluenceTitle with
    | some targetPageId =>
        "[" ++ text ++ "](" ++ baseUrl ++ "/wiki/spaces/" ++ space ++ "/pages/" ++
          toString targetPageId ++ ")"
    | none => "[" ++ text ++ "](#" ++ confluenceTitle ++ ")"
  else "[" ++ text ++ "](" ++ url ++ ")"

/-- Callback of `convertLinks` (`src/confluence/pageCreator.js` lines 504-508):
every remaining Markdown link becomes an HTML `<a>` tag. -/
def aLinkCb (text url : String) : String :=
  "<a href=\"" ++ url ++ "\" target=\"_blank\">" ++ text ++ "</a>"

/-- Pass 1 of `processConfluenceLinks`: wiki links with display text. -/
def linkPass1 (baseUrl space : String) (m : List (String × Nat))
    (l : List Char) : List Char :=
  replaceAllMatches
    (fun s => (tryWikiDispLink s).map fun x => (wikiDispCb baseUrl space m x.1 x.2.1, x.2.2)) l

/-- Pass 2 of `processConfluenceLinks`: simple wiki links. -/
def linkPass2 (baseUrl space : String) (m : List (String × Nat))
    (l : List Char) : List Char :=
  replaceAllMatches
    (fun s => (tryWikiSimpleLink s).map fun x =>
      (resolveSimpleWikiLink baseUrl space m x.1, x.2)) l

/-- Pass 3 of `processConfluenceLinks`: standard Markdown links. -/
def linkPass3 (baseUrl space : String) (m : List (String × Nat))
    (l : List Char) : List Char :=
  replaceAllMatches
    (fun s => (tryMdLink s).map fun x => (mdLinkCb baseUrl space m x.1 x.2.1, x.2.2)) l

/-- Final `convertLinks` pass. -/
def linkPass4 (l : List Char) : List Char :=
  replaceAllMatches (fun s => (tryMdLink s).map fun x => (aLinkCb x.1 x.2.1, x.2.2)) l

/-- `processConfluenceLinks` (`src/confluence/pageCreator.js` lines 683-792,
success path; the Confluence space key and base URL come from the environment
and are passed here as parameters): the three dialect passes followed by
`convertLinks`. -/
def processConfluenceLinks (baseUrl space : String) (pageIdMap : List (String × Nat))
    (content : String) : String :=
  String.mk (linkPass4 (linkPass3 baseUrl space pageIdMap
    (linkPass2 baseUrl space pageIdMap (linkPass1 baseUrl space pageIdMap content.data))))

/-- C2 counterexample: the page with raw title `A+B` (not a fixed point of
`mapWikiTitleToConfluence`, which sends it to `A B`) is registered in the
Phase-1 map, yet an Azure `_wiki`-dialect link naming it does NOT take the
anchor fallback: the lookup misses and the original external URL is kept, so
not every link to such a page anchors. -/
theorem C2_azure_link_ignores_phase1_registration :
    mapWikiTitleToConfluence "A+B" ≠ "A+B"
    ∧ lookupS [("A+B", 7)] "A+B" = some 7
    ∧ processConfluenceLinks "https://base" "SP" [("A+B", 7)]
        "[doc](https://dev.azure.com/org/_wiki/x/A+B)" =
      "<a href=\"https://dev.azure.com/org/_wiki/x/A+B\" target=\"_blank\">doc</a>"
    ∧ '#' ∉ (processConfluenceLinks "https://base" "SP" [("A+B", 7)]
        "[doc](https://dev.azure.com/org/_wiki/x/A+B)").data := by
  refine ⟨by decide, rfl, rfl, by decide⟩

/-- C2 amended: Phase 1 (`processALLPages`) registers every created page id
under the page's raw parsed title, link resolution looks a target up only
after applying `mapWikiTitleToConfluence`, hence a link resolves to a direct
link exactly when the sanitized link target equals a raw registered title,
and a page whose raw title is not a fixed point of `mapWikiTitleToConfluence`
can never be hit: no link ever resolves to a direct link to it — both
wiki-style dialects and root-relative Markdown links take the anchor
fallback, while Azure `_wiki` links keep their original external URL — even
though the page was registered in Phase 1. -/
theorem C2_registration_lookup_mismatch_outcomes :
    (∀ (ps : List WPage) (fresh : Nat) (T : String),
        (lookupS (processALLPages fresh [] ps).2 T).isSome ↔ T ∈ collectTitles ps)
    ∧ (∀ (m : List (String × Nat)) (L : String),
        linkLookup m L = lookupS m (mapWikiTitleToConfluence L))
    ∧ (∀ T : String, mapWikiTitleToConfluence T ≠ T →
        ∀ L : String, mapWikiTitleToConfluence L ≠ T)
    ∧ (∀ (T : String) (pid : Nat) (L base space : String),
        mapWikiTitleToConfluence T ≠ T →
        resolveSimpleWikiLink base space [(T, pid)] L =
          "[" ++ L ++ "](#" ++ mapWikiTitleToConfluence L ++ ")")
    ∧ (∀ (T : String) (pid : Nat) (L D base space : String),
        mapWikiTitleToConfluence T ≠ T →
        wikiDispCb base space [(T, pid)] L D =
          "[" ++ D ++ "](#" ++ mapWikiTitleToConfluence L ++ ")")
    ∧ (∀ (T : String) (pid : Nat) (text url base space : String),
        mapWikiTitleToConfluence T ≠ T →
        (strStartsWith url "http://" ∨ strStartsWith url "https://") →
        strIncludes url "_wiki" = true →
        mdLinkCb base space [(T, pid)] text url = "[" ++ text ++ "](" ++ url ++ ")")
    ∧ (∀ (T : String) (pid : Nat) (text url base space : String),
        mapWikiTitleToConfluence T ≠ T →
        ¬(strStartsWith url "http://" ∨ strStartsWith url "https://") →
        (strStartsWith url "/" ∧ ¬(strIncludes url ".attachments")) →
        mdLinkCb base space [(T, pid)] text url =
          "[" ++ text ++ "](#" ++
            mapWikiTitleToConfluence (splitLastSegment url) ++ ")") := by
  refine ⟨?_, ?_, ?_, ?_, ?_, ?_, ?_⟩
  · intro ps fresh T
    rw [processALLPages_lookup T (sizeOf ps) ps fresh [] (Nat.le_refl _)]
    simp [lookupS]
  · intro m L
    rfl
  · intro T hT L hL
    exact hT (by rw [← hL, mapWiki_idempotent])
  · intro T pid L base space hT
    have hne : ¬(mapWikiTitleToConfluence L = T) := by
      intro hL
      exact hT (by rw [← hL, mapWiki_idempotent])
    simp only [resolveSimpleWikiLink, lookupS, if_neg hne]
  · intro T pid L D base space hT
    have hne : ¬(mapWikiTitleToConfluence L = T) := by
      intro hL
      exact hT (by rw [← hL, mapWiki_idempotent])
    simp only [wikiDispCb, lookupS, if_neg hne]
  · intro T pid text url base space hT hhttp hwiki
    have hne : ¬(mapWikiTitleToConfluence (splitLastSegment url) = T) := by
      intro hL
      exact hT (by rw [← hL, mapWiki_idempotent])
    simp only [mdLinkCb, if_pos hhttp, if_pos hwiki, lookupS, if_neg hne]
  · intro T pid text url base space hT hnh hrel
    have hne : ¬(mapWikiTitleToConfluence (splitLastSegment url) = T) := by
      intro hL
      exact hT (by rw [← hL, mapWiki_idempotent])
    simp only [mdLinkCb, if_neg hnh, if_pos hrel, lookupS, if_neg hne]

/-- Witness for C2 at the concrete non-fixed-point title `A+B`
(`mapWikiTitleToConfluence "A+B" = "A B"`): a simple wiki-style link written
exactly as the registered raw title falls back to the anchor form, and an
Azure `_wiki` link naming it keeps the original URL. -/
theorem C2_registration_lookup_mismatch_outcomes_witness :
    mapWikiTitleToConfluence "A+B" ≠ "A+B"
    ∧ resolveSimpleWikiLink "https://example.atlassian.net" "SP" [("A+B", 7)] "A+B" =
        "[" ++ "A+B" ++ "](#" ++ mapWikiTitleToConfluence "A+B" ++ ")"
    ∧ (strStartsWith "https://dev.azure.com/org/_wiki/x/A+B" "http://" ∨
        strStartsWith "https://dev.azure.com/org/_wiki/x/A+B" "https://")
    ∧ strIncludes "https://dev.azure.com/org/_wiki/x/A+B" "_wiki" = true
    ∧ mdLinkCb "https://example.atlassian.net" "SP" [("A+B", 7)] "doc"
        "https://dev.azure.com/org/_wiki/x/A+B" =
      "[" ++ "doc" ++ "](" ++ "https://dev.azure.com/org/_wiki/x/A+B" ++ ")" :=
  ⟨by decide,
   C2_registration_lookup_mismatch_outcomes.2.2.2.1 "A+B" 7 "A+B"
     "https://example.atlassian.net" "SP" (by decide),
   Or.inr (by decide),
   by decide,
   C2_registration_lookup_mismatch_outcomes.2.2.2.2.2.1 "A+B" 7 "doc"
     "https://dev.azure.com/org/_wiki/x/A+B" "https://example.atlassian.net" "SP"
     (by decide) (Or.inr (by decide)) (by decide)⟩

/-- C3 counterexample: an Azure DevOps `_wiki` URL whose resolved title is not
in the page-id map is NOT turned into a same-document anchor: the original
external URL is kept (the dialect callback returns the match unchanged), and
no `#` appears anywhere in the output. -/
theorem C3_azure_wiki_link_keeps_url_counterexample :
    processConfluenceLinks "https://base" "SP" []
        "[doc](https://dev.azure.com/org/proj/_wiki/wikis/w/1/Setup-Guide)" =
      "<a href=\"https://dev.azure.com/org/proj/_wiki/wikis/w/1/Setup-Guide\" target=\"_blank\">doc</a>"
    ∧ '#' ∉ (processConfluenceLinks "https://base" "SP" []
        "[doc](https://dev.azure.com/org/proj/_wiki/wikis/w/1/Setup-Guide)").data := by
  constructor
  · rfl
  · decide

/-- C3 amended: wiki-style links (both forms) and root-relative Markdown links
whose resolved title is absent from the map degrade to a same-document anchor
`#title` keeping the display text (rendered as an `<a href="#title">` tag by
the final `convertLinks` pass), and the transformation still returns normally;
an Azure `_wiki` URL whose resolved title is absent is instead left as the
original external URL. -/
theorem C3_unresolved_target_fallback :
    ∀ (m : List (String × Nat)) (base space : String),
      (lookupS m "Setup Guide" = none →
        processConfluenceLinks base space m "[[Setup Guide]]" =
          "<a href=\"#Setup Guide\" target=\"_blank\">Setup Guide</a>")
      ∧ (lookupS m "Page" = none →
        processConfluenceLinks base space m "[[Page|Show This]]" =
          "<a href=\"#Page\" target=\"_blank\">Show This</a>")
      ∧ (lookupS m "Setup-Guide" = none →
        processConfluenceLinks base space m "[doc](/wiki/Setup-Guide)" =
          "<a href=\"#Setup-Guide\" target=\"_blank\">doc</a>")
      ∧ (lookupS m "Setup-Guide" = none →
        processConfluenceLinks base space m
            "[doc](https://dev.azure.com/org/_wiki/x/Setup-Guide)" =
          "<a href=\"https://dev.azure.com/org/_wiki/x/Setup-Guide\" target=\"_blank\">doc</a>") := by
  intro m base space
  refine ⟨?_, ?_, ?_, ?_⟩
  · intro h
    have hres : resolveSimpleWikiLink base space m "Setup Guide" =
        "[Setup Guide](#Setup Guide)" := by
      simp only [resolveSimpleWikiLink]
      rw [show mapWikiTitleToConfluence "Setup Guide" = "Setup Guide" from by decide, h]
      rfl
    have key : processConfluenceLinks base space m "[[Setup Guide]]" =
        String.mk (linkPass4 (linkPass3 base space m
          ((resolveSimpleWikiLink base space m "Setup Guide").data ++ []))) := rfl
    rw [key, hres]
    rfl
  · intro h
    have hres : wikiDispCb base space m "Page" "Show This" = "[Show This](#Page)" := by
      simp only [wikiDispCb]
      rw [show mapWikiTitleToConfluence "Page" = "Page" from by decide, h]
      rfl
    have key : processConfluenceLinks base space m "[[Page|Show This]]" =
        String.mk (linkPass4 (linkPass3 base space m (linkPass2 base space m
          ((wikiDispCb base space m "Page" "Show This").data ++ [])))) := rfl
    rw [key, hres]
    rfl
  · intro h
    have hres : mdLinkCb base space m "doc" "/wiki/Setup-Guide" = "[doc](#Setup-Guide)" := by
      simp only [mdLinkCb]
      rw [if_neg (by decide), if_pos (by decide),
        show mapWikiTitleToConfluence (splitLastSegment "/wiki/Setup-Guide") = "Setup-Guide"
          from by decide, h]
      rfl
    have key : processConfluenceLinks base space m "[doc](/wiki/Setup-Guide)" =
        String.mk (linkPass4
          ((mdLinkCb base space m "doc" "/wiki/Setup-Guide").data ++ [])) := rfl
    rw [key, hres]
    rfl
  · intro h
    have hres : mdLinkCb base space m "doc" "https://dev.azure.com/org/_wiki/x/Setup-Guide" =
        "[doc](https://dev.azure.com/org/_wiki/x/Setup-Guide)" := by
      simp only [mdLinkCb]
      rw [if_pos (by decide), if_pos (by decide),
        show mapWikiTitleToConfluence
            (splitLastSegment "https://dev.azure.com/org/_wiki/x/Setup-Guide") = "Setup-Guide"
          from by decide, h]
      rfl
    have key : processConfluenceLinks base space m
        "[doc](https://dev.azure.com/org/_wiki/x/Setup-Guide)" =
        String.mk (linkPass4
          ((mdLinkCb base space m "doc"
            "https://dev.azure.com/org/_wiki/x/Setup-Guide").data ++ [])) := rfl
    rw [key, hres]
    rfl

/-- Witness for C3: at the empty map, the simple wiki-style link degrades to the
anchor form. -/
theorem C3_unresolved_target_fallback_witness :
    lookupS [] "Setup Guide" = none ∧
    processConfluenceLinks "https://base" "SP" [] "[[Setup Guide]]" =
      "<a href=\"#Setup Guide\" target=\"_blank\">Setup Guide</a>" :=
  ⟨rfl, (C3_unresolved_target_fallback [] "https://base" "SP").1 rfl⟩

/-! ### Claims C4, C5: the local wiki tree parser (`src/local/wikiParser.js`) -/

/-- A filesystem tree: named files with contents, and named directories. -/
inductive FsEntry where
  | file (name : String) (content : String)
  | dir (name : String) (entries : List FsEntry)
deriving Repr

/-- Name of a filesystem entry. -/
def FsEntry.name : FsEntry → String
  | .file n _ => n
  | .dir n _ => n

/-- `stats.isDirectory()`. -/
def FsEntry.isDirEntry : FsEntry → Bool
  | .file _ _ => false
  | .dir _ _ => true

/-- JS `s.toLowerCase()` (ASCII range, which covers the names compared). -/
def strToLower (s : String) : String := String.mk (s.data.map Char.toLower)

/-- JS `s.endsWith(suf)` (kept kernel-reducible). -/
def strEndsWith (s suf : String) : Bool := suf.data.isSuffixOf s.data

/-- `path.join` with forward slashes. -/
def pathJoin (a b : String) : String := a ++ "/" ++ b

/-- `path.basename(item, '.md')`: strips the exact suffix `.md` when the name
ends with it and is longer than it. -/
def stripMdExt (item : String) : String :=
  if strEndsWith item ".md" ∧ ¬(item = ".md") then
    String.mk (item.data.take (item.data.length - 3))
  else item

/-- `content.split('\n')`. -/
def splitOnNl : List Char → List (List Char)
  | [] => [[]]
  | c :: r =>
    if c = '\n' then [] :: splitOnNl r
    else
      match splitOnNl r with
      | [] => [[c]]
      | h :: t => (c :: h) :: t

/-- `.order` file parsing (`src/local/wikiParser.js` lines 78-100): split on
newlines, keep lines whose trim is non-empty, URL-decode each trimmed line
with fallback to the trimmed line. -/
def parseOrderContent (content : String) : List String :=
  ((splitOnNl content.data).filter fun line => ¬(jsTrimL line).isEmpty).map fun line =>
    let t := String.mk (jsTrimL line)
    (decodeURIComp t).getD t

/-- JS `\w` character class. -/
def jsIsWordChar (c : Char) : Bool :=
  ('a' ≤ c ∧ c ≤ 'z') ∨ ('A' ≤ c ∧ c ≤ 'Z') ∨ ('0' ≤ c ∧ c ≤ '9') ∨ c = '_'

/-- `.replace(/\s+/g, '-')`: each maximal whitespace run becomes one `-`
(the flag tracks whether the current character extends a run already
replaced). -/
def collapseWsGo (inRun : Bool) : List Char → List Char
  | [] => []
  | c :: r =>
    if isJsWs c then
      if inRun then collapseWsGo true r else '-' :: collapseWsGo true r
    else c :: collapseWsGo false r

/-- `.replace(/\s+/g, '-')`. -/
def collapseWs (l : List Char) : List Char := collapseWsGo false l

/-- `normalizeTitle` (`src/local/wikiParser.js` lines 106-108):
`title.replace(/[^\w\s-]/g, '-').replace(/\s+/g, '-')`. -/
def normalizeTitle (title : String) : String :=
  String.mk (collapseWs (title.data.map fun c =>
    if ¬(jsIsWordChar c ∨ isJsWs c ∨ c = '-') then '-' else c))

/-- `orderItems.forEach((item, index) => orderMap.set(normalizeTitle(item), index))`. -/
def buildOrderMap : List String → Nat → List (String × Nat) → List (String × Nat)
  | [], _, m => m
  | it :: r, i, m => buildOrderMap r (i + 1) (updAssoc m (normalizeTitle it) i)

/-- `orderMap.has(norm) ? orderMap.get(norm) : 999`
(`src/local/wikiParser.js` lines 151-152 and 194-195). -/
def orderRank (om : List (String × Nat)) (t : String) : Nat :=
  (lookupS om (normalizeTitle t)).getD 999

/-- A page produced by the local parser, mirroring the JS object fields
(`order` is `none` when the JS object carries no `order` property). -/
structure LPage where
  title : String
  isDirectory : Bool
  isAttachmentDir : Bool := false
  path : String
  order : Option Nat := none
  indexContent : Option String := none
  children : List LPage := []
  originalFilename : Option String := none
deriving Repr

/-- Rank used by the sort comparator: the `order` field, `999` if absent. -/
def rnk (p : LPage) : Nat := p.order.getD 999

/-- The sort comparator (`src/local/wikiParser.js` lines 247-252): numeric
order difference when both pages carry an `order`, `localeCompare` of titles
otherwise.  `localeCompare` is locale-dependent and passed in as `lc`. -/
def pageCmp (lc : String → String → Int) (a b : LPage) : Int :=
  match a.order, b.order with
  | some x, some y => Int.ofNat x - Int.ofNat y
  | _, _ => lc a.title b.title

/-- Insert into a sorted prefix, keeping the inserted (originally earlier)
element before comparator-equal ones: the stable-sort semantics that
`Array.prototype.sort` guarantees for a consistent comparator. -/
def insertSorted (lc : String → String → Int) (x : LPage) : List LPage → List LPage
  | [] => [x]
  | h :: t => if pageCmp lc h x < 0 then h :: insertSorted lc x t else x :: h :: t

/-- Stable sort modelling `pages.sort(comparator)`. -/
def sortPages (lc : String → String → Int) : List LPage → List LPage
  | [] => []
  | x :: xs => insertSorted lc x (sortPages lc xs)

/-- A default total comparator used to instantiate `lc` in concrete runs. -/
def lcDefault (a b : String) : Int :=
  match compare a b with
  | .lt => -1
  | .eq => 0
  | .gt => 1

mutual

/-- `parseDirectory` (`src/local/wikiParser.js` lines 47-268) on a directory
entry whose full path is `fullPath`: hidden directories (except
`.attachments`) yield nothing, `.attachments` yields its marker page, and
otherwise the `.order` file is read, every entry is processed in listing
order, and the result is sorted with the order/localeCompare comparator. -/
def parseDirEntry (lc : String → String → Int) (fullPath : String) :
    FsEntry → List LPage
  | .file _ _ => []
  | .dir basePath entries =>
    if strStartsWith basePath "." ∧ ¬(basePath = ".attachments") then []
    else if basePath = ".attachments" then
      [{ title := ".attachments", isDirectory := true, isAttachmentDir := true,
         path := fullPath, children := [] }]
    else
      let orderItems :=
        match entries.find? (fun e => strToLower e.name = ".order") with
        | some (.file _ content) => parseOrderContent content
        | _ => []
      let om := buildOrderMap orderItems 0 []
      sortPages lc (parseItems lc fullPath om entries)

/-- The per-entry loop of `parseDirectory` (lines 117-244): skips the `.order`
file, emits the `.attachments` marker, turns Markdown files into leaf pages
with their rank, and recursively parses non-hidden subdirectories —
adding the directory page (with `indexContent` from an inner `index.md` /
same-named file) and, when an inner same-named Markdown file exists, a second
separate page at the same level. -/
def parseItems (lc : String → String → Int) (fullPath : String)
    (om : List (String × Nat)) : List FsEntry → List LPage
  | [] => []
  | e :: rest =>
    (match e with
     | .dir n es =>
       if strToLower n = ".order" then []
       else if n = ".attachments" then
         [{ title := n, isDirectory := true, isAttachmentDir := true,
            path := pathJoin fullPath n, children := [] }]
       else if ¬(strStartsWith n ".") then
         let decodedDirTitle := (decodeURIComp n).getD n
         let hasMarkdownOrDirs := es.any fun s =>
           strEndsWith (strToLower s.name) ".md" ∨
             (s.isDirEntry ∧ ¬(strStartsWith s.name "."))
         if hasMarkdownOrDirs then
           let subPages := parseDirEntry lc (pathJoin fullPath n) (.dir n es)
           if ¬subPages.isEmpty then
             let order := orderRank om decodedDirTitle
             let indexFile := es.find? fun f =>
               strToLower f.name = "index.md" ∨ strToLower f.name = strToLower n ++ ".md"
             let indexContent : Option String :=
               match indexFile with
               | some (.file _ c) => some c
               | _ => none
             let explicitFile := es.find? fun f => strToLower f.name = strToLower n ++ ".md"
             [{ title := decodedDirTitle, isDirectory := true,
                path := pathJoin fullPath n, order := some order,
                indexContent := indexContent, children := subPages,
                originalFilename := some n }] ++
             (match explicitFile with
              | some f =>
                [{ title := decodedDirTitle, isDirectory := false,
                   path := pathJoin (pathJoin fullPath n) f.name,
                   order := some order, children := [],
                   originalFilename := some f.name }]
              | none => [])
           else []
         else []
       else []
     | .file n _content =>
       if strToLower n = ".order" then []
       else if strEndsWith (strToLower n) ".md" then
         let title := stripMdExt n
         let decodedTitle := (decodeURIComp title).getD title
         let order := orderRank om decodedTitle
         [{ title := decodedTitle, isDirectory := false,
            path := pathJoin fullPath n, order := some order,
            children := [], originalFilename := some n }]
       else []) ++ parseItems lc fullPath om rest

end

theorem pageCmp_lt_iff {lc : String → String → Int} {a b : LPage}
    (ha : a.order.isSome) (hb : b.order.isSome) :
    (pageCmp lc a b < 0) ↔ rnk a < rnk b := by
  obtain ⟨x, hx⟩ := Option.isSome_iff_exists.1 ha
  obtain ⟨y, hy⟩ := Option.isSome_iff_exists.1 hb
  simp only [pageCmp, rnk, hx, hy, Option.getD_some, Int.ofNat_eq_coe]
  omega

theorem mem_insertSorted {lc : String → String → Int} {x c : LPage} :
    ∀ {l : List LPage}, c ∈ insertSorted lc x l ↔ c = x ∨ c ∈ l := by
  intro l
  induction l with
  | nil => simp [insertSorted]
  | cons h t ih =>
    simp only [insertSorted]
    by_cases hc : pageCmp lc h x < 0
    · rw [if_pos hc]
      rw [List.mem_cons, ih, List.mem_cons]
      tauto
    · rw [if_neg hc]
      simp [List.mem_cons]

theorem mem_sortPages {lc : String → String → Int} {c : LPage} :
    ∀ {l : List LPage}, c ∈ sortPages lc l ↔ c ∈ l := by
  intro l
  induction l with
  | nil => simp [sortPages]
  | cons h t ih => simp [sortPages, mem_insertSorted, ih]

theorem insertSorted_append {lc : String → String → Int} {x : LPage} :
    ∀ (core maxes : List LPage), (∀ h ∈ maxes, ¬(pageCmp lc h x < 0)) →
      insertSorted lc x (core ++ maxes) = insertSorted lc x core ++ maxes := by
  intro core
  induction core with
  | nil =>
    intro maxes hm
    cases maxes with
    | nil => rfl
    | cons h t =>
      simp only [List.nil_append, insertSorted, if_neg (hm h (by simp))]
      rfl
  | cons h c ih =>
    intro maxes hm
    simp only [List.cons_append, insertSorted, List.append_eq]
    by_cases hc : pageCmp lc h x < 0
    · rw [if_pos hc, if_pos hc, ih maxes hm]
      rfl
    · rw [if_neg hc, if_neg hc]
      rfl

theorem insertSorted_all_lt {lc : String → String → Int} {x : LPage} :
    ∀ {l : List LPage}, (∀ h ∈ l, pageCmp lc h x < 0) →
      insertSorted lc x l = l ++ [x] := by
  intro l
  induction l with
  | nil => intro _; rfl
  | cons h t ih =>
    intro hl
    simp only [insertSorted, if_pos (hl h (by simp))]
    rw [ih (fun q hq => hl q (by simp [hq]))]
    rfl

theorem insertSorted_pairwise {lc : String → String → Int} {x : LPage} :
    ∀ {l : List LPage}, x.order.isSome → (∀ p ∈ l, p.order.isSome) →
      List.Pairwise (fun a b => rnk a ≤ rnk b) l →
      List.Pairwise (fun a b => rnk a ≤ rnk b) (insertSorted lc x l) := by
  intro l hx hl hp
  induction l with
  | nil => simp [insertSorted]
  | cons h t ih =>
    have hh : h.order.isSome := hl h (by simp)
    have ht : ∀ p ∈ t, p.order.isSome := fun p hq => hl p (by simp [hq])
    rw [List.pairwise_cons] at hp
    simp only [insertSorted]
    by_cases hc : pageCmp lc h x < 0
    · rw [if_pos hc]
      rw [List.pairwise_cons]
      constructor
      · intro b hb
        rcases mem_insertSorted.1 hb with rfl | hb
        · exact Nat.le_of_lt ((pageCmp_lt_iff hh hx).1 hc)
        · exact hp.1 b hb
      · exact ih ht hp.2
    · rw [if_neg hc]
      rw [List.pairwise_cons]
      constructor
      · intro b hb
        have hxh : rnk x ≤ rnk h := by
          have := (pageCmp_lt_iff hh hx).not.1 hc
          omega
        rcases List.mem_cons.1 hb with rfl | hb
        · exact hxh
        · exact Nat.le_trans hxh (hp.1 b hb)
      · exact List.pairwise_cons.2 hp

theorem sortPages_sorted (lc : String → String → Int) :
    ∀ ps : List LPage, (∀ p ∈ ps, p.order.isSome) →
      List.Pairwise (fun a b => rnk a ≤ rnk b) (sortPages lc ps) := by
  intro ps
  induction ps with
  | nil => intro _; simp [sortPages]
  | cons p ps ih =>
    intro h
    exact insertSorted_pairwise (h p (by simp))
      (fun q hq => h q (List.mem_cons_of_mem _ (mem_sortPages.1 hq)))
      (ih fun q hq => h q (List.mem_cons_of_mem _ hq))

theorem sortPages_split (lc : String → String → Int) :
    ∀ ps : List LPage, (∀ p ∈ ps, p.order.isSome ∧ rnk p ≤ 999) →
      sortPages lc ps =
        sortPages lc (ps.filter fun p => rnk p < 999) ++
          ps.filter fun p => rnk p = 999 := by
  intro ps
  induction ps with
  | nil => intro _; rfl
  | cons p ps ih =>
    intro h
    obtain ⟨hpSome, hple⟩ := h p (by simp)
    have hps : ∀ q ∈ ps, q.order.isSome ∧ rnk q ≤ 999 := fun q hq => h q (by simp [hq])
    by_cases hr : rnk p = 999
    · have hf1 : (p :: ps).filter (fun q => rnk q < 999) =
          ps.filter (fun q => rnk q < 999) := by
        rw [List.filter_cons]
        simp [hr]
      have hf2 : (p :: ps).filter (fun q => rnk q = 999) =
          p :: ps.filter (fun q => rnk q = 999) := by
        rw [List.filter_cons]
        simp [hr]
      have hm : ∀ q ∈ ps.filter (fun q => rnk q = 999), ¬(pageCmp lc q p < 0) := by
        intro q hq
        have hq999 : rnk q = 999 := by simpa using List.of_mem_filter hq
        have hqSome : q.order.isSome := (hps q (List.mem_of_mem_filter hq)).1
        rw [pageCmp_lt_iff hqSome hpSome]
        omega
      have hcore : ∀ q ∈ sortPages lc (ps.filter fun q => rnk q < 999),
          pageCmp lc q p < 0 := by
        intro q hq
        rw [mem_sortPages] at hq
        have hqlt : rnk q < 999 := by simpa using List.of_mem_filter hq
        have hqSome : q.order.isSome := (hps q (List.mem_of_mem_filter hq)).1
        rw [pageCmp_lt_iff hqSome hpSome]
        omega
      rw [hf1, hf2]
      show insertSorted lc p (sortPages lc ps) = _
      rw [ih hps, insertSorted_append _ _ hm, insertSorted_all_lt hcore]
      simp
    · have hlt : rnk p < 999 := by omega
      have hf1 : (p :: ps).filter (fun q => rnk q < 999) =
          p :: ps.filter (fun q => rnk q < 999) := by
        rw [List.filter_cons]
        simp [hlt]
      have hf2 : (p :: ps).filter (fun q => rnk q = 999) =
          ps.filter (fun q => rnk q = 999) := by
        rw [List.filter_cons]
        simp [hr]
      have hm : ∀ q ∈ ps.filter (fun q => rnk q = 999), ¬(pageCmp lc q p < 0) := by
        intro q hq
        have hq999 : rnk q = 999 := by simpa using List.of_mem_filter hq
        have hqSome : q.order.isSome := (hps q (List.mem_of_mem_filter hq)).1
        rw [pageCmp_lt_iff hqSome hpSome]
        omega
      rw [hf1, hf2]
      show insertSorted lc p (sortPages lc ps) = _
      rw [ih hps, insertSorted_append _ _ hm]
      rfl

/-- The sibling layout of claim C4: a directory `Foo/` (containing `Bar.md`)
next to a file `Foo.md`. -/
def c4entries : List FsEntry :=
  [.dir "Foo" [.file "Bar.md" "bar content"], .file "Foo.md" "foo content"]

/-- The `.order` layout of claim C5: `.order` lists only `c`, while the
directory enumerates `b.md`, `a.md`, `c.md` in that (non-alphabetical)
order. -/
def c5entries : List FsEntry :=
  [.file ".order" "c", .file "b.md" "", .file "a.md" "", .file "c.md" ""]

/-- C4 counterexample: with sibling `Foo/` and `Foo.md`, the parsed tree holds
two pages titled `Foo`, not exactly one. -/
theorem C4_sibling_dir_file_counterexample :
    ((parseDirEntry lcDefault "wiki" (FsEntry.dir "wiki" c4entries)).filter
        (fun p => p.title = "Foo")).length = 2
    ∧ ¬(((parseDirEntry lcDefault "wiki" (FsEntry.dir "wiki" c4entries)).filter
        (fun p => p.title = "Foo")).length = 1) := by
  constructor
  · rfl
  · decide

/-- C4 amended: sibling `Foo/` and `Foo.md` are not merged: parsing yields two
sibling pages titled `Foo` — a directory page whose children come from `Foo/`
(with no content of its own) and a separate leaf page backed by `Foo.md` —
regardless of the locale comparator. -/
theorem C4_sibling_dir_file_duplicated :
    ∀ lc : String → String → Int,
      parseDirEntry lc "wiki" (FsEntry.dir "wiki" c4entries) =
        [{ title := "Foo", isDirectory := true, isAttachmentDir := false,
           path := "wiki/Foo", order := some 999, indexContent := none,
           children := [{ title := "Bar", isDirectory := false, isAttachmentDir := false,
                          path := "wiki/Foo/Bar.md", order := some 999,
                          indexContent := none, children := [],
                          originalFilename := some "Bar.md" }],
           originalFilename := some "Foo" },
         { title := "Foo", isDirectory := false, isAttachmentDir := false,
           path := "wiki/Foo.md", order := some 999, indexContent := none,
           children := [], originalFilename := some "Foo.md" }] :=
  fun _ => rfl

/-- C5 counterexample: with `.order` listing only `c`, the parsed sibling
order is `c, b, a` — the unlisted entries stay in directory-listing order —
whereas the claim demands the alphabetical `c, a, b`. -/
theorem C5_unlisted_not_alphabetical_counterexample :
    ((parseDirEntry lcDefault "wiki" (FsEntry.dir "wiki" c5entries)).map
      (fun p => p.title)) = ["c", "b", "a"]
    ∧ ¬(((parseDirEntry lcDefault "wiki" (FsEntry.dir "wiki" c5entries)).map
      (fun p => p.title)) = ["c", "a", "b"]) := by
  constructor
  · rfl
  · decide

/-- C5 amended: entries not matched in the `.order` map get the sentinel rank
999 while matched ones get their listed index; the sort is stable, so pages
rank below 999 come first in rank order and the rank-999 pages follow in
original directory-listing order (no alphabetical tie-break); concretely,
`.order` containing only `c` over listing `b.md, a.md, c.md` parses as
`c, b, a` for every locale comparator. -/
theorem C5_partial_order_sentinel_and_stable_sort :
    (∀ (om : List (String × Nat)) (t : String),
      (lookupS om (normalizeTitle t) = none → orderRank om t = 999)
      ∧ ∀ i, lookupS om (normalizeTitle t) = some i → orderRank om t = i)
    ∧ (∀ (lc : String → String → Int) (ps : List LPage),
        (∀ p ∈ ps, p.order.isSome ∧ rnk p ≤ 999) →
        sortPages lc ps =
          sortPages lc (ps.filter fun p => rnk p < 999) ++
            ps.filter fun p => rnk p = 999)
    ∧ (∀ (lc : String → String → Int) (ps : List LPage),
        (∀ p ∈ ps, p.order.isSome) →
        List.Pairwise (fun a b => rnk a ≤ rnk b) (sortPages lc ps))
    ∧ (∀ lc : String → String → Int,
        (parseDirEntry lc "wiki" (FsEntry.dir "wiki" c5entries)).map (fun p => p.title) =
          ["c", "b", "a"]) := by
  refine ⟨?_, sortPages_split, sortPages_sorted, fun _ => rfl⟩
  intro om t
  constructor
  · intro h
    simp [orderRank, h]
  · intro i h
    simp [orderRank, h]

/-- Witness for C5 on a concrete three-page list: one ranked page and two
sentinel pages, stably split. -/
theorem C5_partial_order_sentinel_and_stable_sort_witness :
    (∀ p ∈ [({ title := "b", isDirectory := false, path := "wiki/b.md",
               order := some 999, children := [] } : LPage),
            { title := "a", isDirectory := false, path := "wiki/a.md",
              order := some 999, children := [] },
            { title := "c", isDirectory := false, path := "wiki/c.md",
              order := some 0, children := [] }], p.order.isSome ∧ rnk p ≤ 999)
    ∧ sortPages lcDefault
        [{ title := "b", isDirectory := false, path := "wiki/b.md",
           order := some 999, children := [] },
         { title := "a", isDirectory := false, path := "wiki/a.md",
           order := some 999, children := [] },
         { title := "c", isDirectory := false, path := "wiki/c.md",
           order := some 0, children := [] }] =
      sortPages lcDefault
        ([{ title := "b", isDirectory := false, path := "wiki/b.md",
            order := some 999, children := [] },
          { title := "a", isDirectory := false, path := "wiki/a.md",
            order := some 999, children := [] },
          { title := "c", isDirectory := false, path := "wiki/c.md",
            order := some 0, children := [] }].filter fun p => rnk p < 999) ++
        [({ title := "b", isDirectory := false, path := "wiki/b.md",
            order := some 999, children := [] } : LPage),
         { title := "a", isDirectory := false, path := "wiki/a.md",
           order := some 999, children := [] },
         { title := "c", isDirectory := false, path := "wiki/c.md",
           order := some 0, children := [] }].filter fun p => rnk p = 999 :=
  ⟨by decide,
   C5_partial_order_sentinel_and_stable_sort.2.1 lcDefault _ (by decide)⟩

/-! ### Claim C6: duplicate validation (`src/confluence/pageValidator.js`) -/

/-- Reasons recorded by the validator. -/
inductive DupReason where
  | duplicateInWiki
  | existsInConfluence
deriving Repr, DecidableEq

/-- A `DuplicateRecord` as pushed by `validatePages`. -/
structure DupRec where
  title : String
  path : String
  confluenceId : Option Nat := none
  reason : DupReason
deriving Repr, DecidableEq

mutual

/-- `checkPage` (`src/confluence/pageValidator.js` lines 18-55): a raw title
already seen yields one duplicate-in-wiki record and skips the subtree; an
unseen title is added to the seen-set, checked against Confluence (`remote`,
returning the id of an existing same-titled remote page, if any), and its
children are visited. -/
def checkPage (remote : String → Option Nat) (processed : List String) :
    WPage → List String × List DupRec
  | ⟨title, _content, path, children⟩ =>
    if title ∈ processed then
      (processed, [{ title := title, path := path, reason := .duplicateInWiki }])
    else
      let fromRemote :=
        match remote title with
        | some cid =>
          [{ title := title, confluenceId := some cid, path := path,
             reason := .existsInConfluence }]
        | none => []
      let r := checkPages remote (title :: processed) children
      (r.1, fromRemote ++ r.2)

/-- The traversal over a page list (lines 50-60). -/
def checkPages (remote : String → Option Nat) (processed : List String) :
    List WPage → List String × List DupRec
  | [] => (processed, [])
  | p :: ps =>
    let r1 := checkPage remote processed p
    let r2 := checkPages remote r1.1 ps
    (r2.1, r1.2 ++ r2.2)

end

/-- `validatePages` (lines 14-63). -/
def validatePages (remote : String → Option Nat) (pages : List WPage) : List DupRec :=
  (checkPages remote [] pages).2

theorem checkPage_flat (remote : String → Option Nat) (hr : ∀ s, remote s = none)
    (processed : List String) (p : WPage) (hp : p.children = []) :
    checkPage remote processed p =
      if p.title ∈ processed then
        (processed, [{ title := p.title, path := p.path, reason := .duplicateInWiki }])
      else (p.title :: processed, []) := by
  obtain ⟨title, content, path, children⟩ := p
  simp only [] at hp
  by_cases h : title ∈ processed
  · simp [checkPage, h]
  · simp [checkPage, h, hr, hp, checkPages]

theorem checkPages_flat (remote : String → Option Nat) (hr : ∀ s, remote s = none)
    (t : String) :
    ∀ (ps : List WPage) (processed : List String), (∀ p ∈ ps, p.children = []) →
      ((((checkPages remote processed ps).2.filter fun r => r.title = t).length =
          if t ∈ processed then (ps.filter fun p => p.title = t).length
          else (ps.filter fun p => p.title = t).length - 1)
        ∧ ((t ∈ (checkPages remote processed ps).1) ↔
            (t ∈ processed ∨ ∃ p ∈ ps, p.title = t))
        ∧ (∀ r ∈ (checkPages remote processed ps).2,
            r.reason = DupReason.duplicateInWiki)) := by
  intro ps
  induction ps with
  | nil =>
    intro processed hflat
    refine ⟨?_, by simp [checkPages], by simp [checkPages]⟩
    by_cases h : t ∈ processed <;> simp [checkPages, h]
  | cons p ps ih =>
    intro processed hflat
    have hp := hflat p (by simp)
    have hps : ∀ q ∈ ps, q.children = [] := fun q hq => hflat q (by simp [hq])
    simp only [checkPages]
    rw [checkPage_flat remote hr processed p hp]
    by_cases hmem : p.title ∈ processed
    · rw [if_pos hmem]
      obtain ⟨ih1, ih2, ih3⟩ := ih processed hps
      refine ⟨?_, ?_, ?_⟩
      · simp only [List.filter_append, List.length_append, ih1]
        by_cases ht : p.title = t
        · have htm : t ∈ processed := ht ▸ hmem
          rw [List.filter_cons]
          simp [ht, htm]
          omega
        · rw [List.filter_cons]
          by_cases h2 : t ∈ processed <;> simp [ht, h2]
      · rw [ih2]
        constructor
        · rintro (h | h)
          · exact Or.inl h
          · exact Or.inr (by rcases h with ⟨q, hq, hqt⟩; exact ⟨q, by simp [hq], hqt⟩)
        · rintro (h | ⟨q, hq, hqt⟩)
          · exact Or.inl h
          · rcases List.mem_cons.1 hq with rfl | hq
            · exact Or.inl (hqt ▸ hmem)
            · exact Or.inr ⟨q, hq, hqt⟩
      · intro r hr2
        rcases List.mem_append.1 hr2 with h | h
        · rcases List.mem_singleton.1 h with rfl
          rfl
        · exact ih3 r h
    · rw [if_neg hmem]
      obtain ⟨ih1, ih2, ih3⟩ := ih (p.title :: processed) hps
      refine ⟨?_, ?_, ?_⟩
      · simp only [List.nil_append, ih1]
        by_cases ht : p.title = t
        · subst ht
          rw [List.filter_cons]
          simp [hmem]
        · rw [List.filter_cons]
          by_cases h2 : t ∈ processed
          · have hin : t ∈ p.title :: processed := by simp [List.mem_cons, h2]
            simp [ht, hin, h2]
          · have hnot : ¬(t ∈ p.title :: processed) := by
              simp only [List.mem_cons]
              rintro (h | h)
              · exact ht h.symm
              · exact h2 h
            simp [ht, hnot, h2]
      · rw [ih2]
        simp only [List.mem_cons]
        constructor
        · rintro ((h | h) | h)
          · exact Or.inr ⟨p, by simp, h.symm⟩
          · exact Or.inl h
          · exact Or.inr (by rcases h with ⟨q, hq, hqt⟩; exact ⟨q, by simp [hq], hqt⟩)
        · rintro (h | ⟨q, hq, hqt⟩)
          · exact Or.inl (Or.inr h)
          · rcases hq with rfl | hq
            · exact Or.inl (Or.inl hqt.symm)
            · exact Or.inr ⟨q, hq, hqt⟩
      · intro r hr2
        exact ih3 r (by simpa using hr2)

/-- The two pages of the C6 counterexample: distinct raw titles that sanitize
to the same resolved title. -/
def c6pages : List WPage :=
  [{ title := "A+B", path := "wiki/A+B.md", children := [] },
   { title := "A B", path := "wiki/A B.md", children := [] }]

/-- C6 counterexample: `A+B` and `A B` resolve to the same sanitized title,
yet validation (which compares raw parsed titles) records no DuplicateRecord
at all — not the claimed exactly one. -/
theorem C6_resolved_title_pair_counterexample :
    sanitizeTitle "A+B" = sanitizeTitle "A B"
    ∧ validatePages (fun _ => none) c6pages = []
    ∧ ¬((validatePages (fun _ => none) c6pages).length = 1) := by
  refine ⟨by decide, rfl, by decide⟩

/-- C6 amended: validation deduplicates on RAW parsed titles, not resolved
ones.  For a flat page list with no same-titled remote pages, the number of
DuplicateRecords for a title equals its number of occurrences minus one (one
record per occurrence after the first, each with the duplicate-in-wiki
reason); two pages whose resolved titles coincide but whose raw titles differ
yield no record. -/
theorem C6_duplicate_records_per_raw_title :
    ∀ (remote : String → Option Nat) (ps : List WPage) (t : String),
      (∀ s, remote s = none) → (∀ p ∈ ps, p.children = []) →
      (((validatePages remote ps).filter fun r => r.title = t).length =
        (ps.filter fun p => p.title = t).length - 1)
      ∧ ∀ r ∈ validatePages remote ps, r.reason = DupReason.duplicateInWiki := by
  intro remote ps t hr hflat
  obtain ⟨h1, _, h3⟩ := checkPages_flat remote hr t ps [] hflat
  constructor
  · simpa [validatePages] using h1
  · intro r hrr
    exact h3 r (by simpa [validatePages] using hrr)

/-- Two flat pages sharing the raw title `Setup`. -/
def c6two : List WPage :=
  [{ title := "Setup", path := "wiki/Setup.md", children := [] },
   { title := "Setup", path := "wiki/Guide/Setup.md", children := [] }]

/-- Witness for C6: two pages with the same raw title yield exactly one
DuplicateRecord. -/
theorem C6_duplicate_records_per_raw_title_witness :
    (∀ s : String, (fun _ => (none : Option Nat)) s = none)
    ∧ (∀ p ∈ c6two, p.children = [])
    ∧ ((validatePages (fun _ => none) c6two).filter fun r => r.title = "Setup").length =
        (c6two.filter fun p => p.title = "Setup").length - 1 :=
  ⟨fun _ => rfl, by intro p hp; fin_cases hp <;> rfl,
   (C6_duplicate_records_per_raw_title (fun _ => none) c6two "Setup" (fun _ => rfl)
      (by intro p hp; fin_cases hp <;> rfl)).1⟩

/-! ### Claim C8: validation conflicts halt publication
(`src/confluence/index.js`, `startConfluenceProcess`) -/

/-- Observable events of `startConfluenceProcess`, in program order. -/
inductive Ev where
  | clearState
  | saveState (d : List DupRec)
  | diag (t : String) (r : DupReason)
  | exitProc
  | publish
deriving Repr, DecidableEq

/-- `findPageInStructure` (`src/confluence/index.js` lines 370-382). -/
def findPageInStructure (t : String) : List WPage → Bool
  | [] => false
  | ⟨title, _, _, children⟩ :: ps =>
    if title = t then true
    else if findPageInStructure t children then true
    else findPageInStructure t ps

/-- `countPagesWithTitle` (lines 390-401). -/
def countPagesWithTitle (t : String) : List WPage → Nat
  | [] => 0
  | ⟨title, _, _, children⟩ :: ps =>
    (if title = t then 1 else 0) + countPagesWithTitle t children + countPagesWithTitle t ps

/-- The re-validation loop over a previously persisted state (lines 46-99):
an entry survives when its page still exists in the wiki structure and, for
target-side duplicates, the remote page still exists — for in-wiki
duplicates, the title still occurs more than once. -/
def stillDuplicates (existing : List DupRec) (remote : String → Option Nat)
    (pages : List WPage) : List DupRec :=
  existing.filter fun d =>
    findPageInStructure d.title pages &&
      (match d.reason with
       | .existsInConfluence => (remote d.title).isSome
       | _ => decide (countPagesWithTitle d.title pages > 1))

/-- `startConfluenceProcess` (lines 20-178) reduced to its decision structure:
re-validate any persisted state (save + exit when conflicts remain, clear
otherwise), then run fresh validation (save + per-conflict diagnostics + exit
on conflicts), and only then run the page-creation pass (`publish`). -/
def startConfluenceProcess (existing : List DupRec) (remote : String → Option Nat)
    (pages : List WPage) : List Ev :=
  let freshPart :=
    let newDuplicates := validatePages remote pages
    if newDuplicates.isEmpty then [Ev.publish]
    else
      Ev.saveState newDuplicates ::
        ((newDuplicates.map fun d => Ev.diag d.title d.reason) ++ [Ev.exitProc])
  if existing.isEmpty then freshPart
  else
    let still := stillDuplicates existing remote pages
    if still.isEmpty then Ev.clearState :: freshPart
    else
      Ev.saveState still ::
        ((still.map fun d => Ev.diag d.title d.reason) ++ [Ev.exitProc])

theorem publish_not_mem_diag_exit (ds : List DupRec) :
    Ev.publish ∉ (ds.map fun d => Ev.diag d.title d.reason) ++ [Ev.exitProc] := by
  intro h
  rcases List.mem_append.1 h with h | h
  · rcases List.mem_map.1 h with ⟨d, _, hd⟩
    exact Ev.noConfusion hd
  · rcases List.mem_singleton.1 h with h
    exact Ev.noConfusion h

/-- C8: whenever a validation pass of the run yields a non-empty conflict
queue, the queue is saved to the validation-state file first, each conflict's
title and reason is printed, the process exits, and the publish phase is never
entered; `publish` happens only when fresh validation found no conflicts. -/
theorem C8_conflicts_persist_and_halt_before_publish :
    ∀ (existing : List DupRec) (remote : String → Option Nat) (pages : List WPage),
      (validatePages remote pages ≠ [] →
        Ev.publish ∉ startConfluenceProcess existing remote pages)
      ∧ (Ev.publish ∈ startConfluenceProcess existing remote pages →
          validatePages remote pages = [])
      ∧ (existing ≠ [] → stillDuplicates existing remote pages ≠ [] →
          startConfluenceProcess existing remote pages =
            Ev.saveState (stillDuplicates existing remote pages) ::
              (((stillDuplicates existing remote pages).map
                fun d => Ev.diag d.title d.reason) ++ [Ev.exitProc]))
      ∧ ((existing = [] ∨ stillDuplicates existing remote pages = []) →
          validatePages remote pages ≠ [] →
          startConfluenceProcess existing remote pages =
            (if existing = [] then [] else [Ev.clearState]) ++
              Ev.saveState (validatePages remote pages) ::
                (((validatePages remote pages).map
                  fun d => Ev.diag d.title d.reason) ++ [Ev.exitProc])) := by
  intro existing remote pages
  refine ⟨?_, ?_, ?_, ?_⟩
  · intro hv hmem
    unfold startConfluenceProcess at hmem
    simp only [List.isEmpty_iff] at hmem
    by_cases he : existing = []
    · rw [if_pos he] at hmem
      by_cases hn : validatePages remote pages = []
      · exact hv hn
      · rw [if_neg hn] at hmem
        rcases List.mem_cons.1 hmem with h | h
        · exact Ev.noConfusion h
        · exact publish_not_mem_diag_exit _ h
    · rw [if_neg he] at hmem
      by_cases hs : stillDuplicates existing remote pages = []
      · rw [if_pos hs] at hmem
        rcases List.mem_cons.1 hmem with h | h
        · exact Ev.noConfusion h
        · by_cases hn : validatePages remote pages = []
          · exact hv hn
          · rw [if_neg hn] at h
            rcases List.mem_cons.1 h with h | h
            · exact Ev.noConfusion h
            · exact publish_not_mem_diag_exit _ h
      · rw [if_neg hs] at hmem
        rcases List.mem_cons.1 hmem with h | h
        · exact Ev.noConfusion h
        · exact publish_not_mem_diag_exit _ h
  · intro hmem
    by_contra hv
    unfold startConfluenceProcess at hmem
    simp only [List.isEmpty_iff] at hmem
    by_cases he : existing = []
    · rw [if_pos he, if_neg hv] at hmem
      rcases List.mem_cons.1 hmem with h | h
      · exact Ev.noConfusion h
      · exact publish_not_mem_diag_exit _ h
    · rw [if_neg he] at hmem
      by_cases hs : stillDuplicates existing remote pages = []
      · rw [if_pos hs] at hmem
        rcases List.mem_cons.1 hmem with h | h
        · exact Ev.noConfusion h
        · rw [if_neg hv] at h
          rcases List.mem_cons.1 h with h | h
          · exact Ev.noConfusion h
          · exact publish_not_mem_diag_exit _ h
      · rw [if_neg hs] at hmem
        rcases List.mem_cons.1 hmem with h | h
        · exact Ev.noConfusion h
        · exact publish_not_mem_diag_exit _ h
  · intro he hs
    unfold startConfluenceProcess
    simp only [List.isEmpty_iff]
    rw [if_neg he, if_neg hs]
  · intro hor hv
    unfold startConfluenceProcess
    simp only [List.isEmpty_iff]
    rcases hor with he | hs
    · rw [if_pos he, if_pos he, if_neg hv]
      rfl
    · by_cases he : existing = []
      · rw [if_pos he, if_pos he, if_neg hv]
        rfl
      · rw [if_neg he, if_pos hs, if_neg he, if_neg hv]
        rfl

/-- Witness for C8: with two same-titled pages and no persisted state, fresh
validation conflicts and the run saves, prints, and exits without entering the
publish phase. -/
theorem C8_conflicts_persist_and_halt_before_publish_witness :
    validatePages (fun _ => none) c6two ≠ [] ∧
    Ev.publish ∉ startConfluenceProcess [] (fun _ => none) c6two :=
  ⟨by decide,
   (C8_conflicts_persist_and_halt_before_publish [] (fun _ => none) c6two).1 (by decide)⟩

/-! ### Claim C9: rate-limit retry (`src/confluence/index.js` lines 239-249,
`confluence-api.js` interceptor and wrappers) -/

/-- A JS error value as observed by `retryWithBackoff`: `responseStatus`
models the `error.response?.status` chain (present only on raw axios errors),
`status` models the custom `error.status` field set by the interceptor. -/
structure JsError where
  message : String
  status : Option Nat := none
  responseStatus : Option Nat := none
deriving Repr, DecidableEq

/-- A raw axios error for an HTTP response with the given status code
(carries `error.response.status`). -/
def axiosHttpError (s : Nat) : JsError :=
  { message := "Request failed with status code " ++ toString s,
    responseStatus := some s }

/-- The client's response interceptor (`confluence-api.js` lines 48-57):
builds a plain `Error` whose `status` copies `error.response?.status`; the
new error has no `response` field. -/
def interceptError (e : JsError) : JsError :=
  { message := e.message, status := e.responseStatus, responseStatus := none }

/-- The `createPage` wrapper (`confluence-api.js` lines 96-103): rethrows a
plain `Error` carrying only a message. -/
def wrapCreatePageError (e : JsError) : JsError :=
  { message := "Failed to create page: " ++ e.message }

/-- `retryWithBackoff` (`src/confluence/index.js` lines 239-249): retry only
when `error.response?.status === 429` and retries remain, sleeping `delay`
and doubling it.  Returns the list of delays slept and the final outcome;
`fn` is indexed by the attempt number. -/
def retryWithBackoff {α : Type} (fn : Nat → Except JsError α) :
    Nat → Nat → Nat → List Nat × Except JsError α
  | 0, _, attempt =>
    ([], fn attempt)
  | retries + 1, delay, attempt =>
    match fn attempt with
    | .ok a => ([], .ok a)
    | .error e =>
      if e.responseStatus = some 429 then
        let rec2 := retryWithBackoff fn retries (delay * 2) (attempt + 1)
        (delay :: rec2.1, rec2.2)
      else ([], .error e)

/-- C9 (code defect evidence): a target 429 reaching `retryWithBackoff`
through the `ConfluenceClient` has been rewrapped twice and carries no
`response` field, so the retry condition never fires — no delay is slept and
the error is rethrown after a single attempt; had the raw axios error (with
`response.status = 429`) reached the wrapper, the intended bounded doubling
backoff (three retries: 1000, 2000, 4000 ms) would run.  The interceptor
stores the 429 in `error.status`, which `retryWithBackoff` never reads. -/
theorem C9_429_retry_condition_unreachable :
    (∀ (α : Type) (fn : Nat → Except JsError α),
      (∀ k, fn k = .error (wrapCreatePageError (interceptError (axiosHttpError 429)))) →
      retryWithBackoff fn 3 1000 0 =
        ([], .error (wrapCreatePageError (interceptError (axiosHttpError 429)))))
    ∧ (∀ (α : Type) (fn : Nat → Except JsError α),
      (∀ k, fn k = .error (axiosHttpError 429)) →
      retryWithBackoff fn 3 1000 0 = ([1000, 2000, 4000], .error (axiosHttpError 429)))
    ∧ (interceptError (axiosHttpError 429)).status = some 429
    ∧ (wrapCreatePageError (interceptError (axiosHttpError 429))).responseStatus = none
    ∧ (wrapCreatePageError (interceptError (axiosHttpError 429))).status = none := by
  refine ⟨?_, ?_, rfl, rfl, rfl⟩
  · intro α fn h
    simp [retryWithBackoff, h 0, wrapCreatePageError, interceptError, axiosHttpError]
  · intro α fn h
    simp [retryWithBackoff, h 0, h 1, h 2, h 3, axiosHttpError]

/-- Witness for C9 at a concrete always-429 call. -/
theorem C9_429_retry_condition_unreachable_witness :
    retryWithBackoff
        (fun _ => (Except.error (wrapCreatePageError (interceptError (axiosHttpError 429)))
          : Except JsError Unit)) 3 1000 0 =
      ([], Except.error (wrapCreatePageError (interceptError (axiosHttpError 429)))) :=
  C9_429_retry_condition_unreachable.1 Unit
    (fun _ => Except.error (wrapCreatePageError (interceptError (axiosHttpError 429))))
    (fun _ => rfl)

/-! ### Claim C10: idempotent attachment upload (`confluence-api.js`
`uploadAttachment`, lines 162-273) -/

/-- An attachment as returned by `getAttachments`. -/
structure Attachment where
  id : Nat
  title : String
deriving Repr, DecidableEq

/-- `uploadAttachment`: check file accessibility, then look for an existing
attachment with the same filename (skipping the upload and returning its
reference on a hit; a failed existence check only logs and proceeds), then
POST.  The first component records whether the POST was performed.  A POST
error carrying `response.status = 400` is converted into a fake success (the
interceptor in this client never preserves `response`, so that branch is
unreachable through it, but it is modelled as written). -/
def uploadAttachment (fileAccessible : Bool)
    (getAtts : Except JsError (List Attachment))
    (postResult : Except JsError (Nat × List Attachment))
    (fileName : String) : Bool × Except JsError (List Attachment) :=
  if ¬fileAccessible then
    (false, .error { message := "File not accessible" })
  else
    let existingAttachment : Option Attachment :=
      match getAtts with
      | .ok atts => atts.find? fun att => att.title = fileName
      | .error _ => none
    match existingAttachment with
    | some existing => (false, .ok [existing])
    | none =>
      match postResult with
      | .ok (status, results) =>
        if status = 200 then (true, .ok results)
        else (true, .error { message := "Unexpected response status" })
      | .error e =>
        if e.responseStatus = some 400 then
          (true, .ok [{ id := 0, title := fileName }])
        else (true, .error { message := "Failed to upload attachment: " ++ e.message })

/-- C10: when an attachment with the requested filename already exists on the
page (and the source file is readable), `uploadAttachment` performs no POST
and returns the existing attachment's reference as a success, never an
error. -/
theorem C10_upload_skips_existing_attachment :
    ∀ (atts : List Attachment) (post : Except JsError (Nat × List Attachment))
      (fileName : String) (existing : Attachment),
      atts.find? (fun att => att.title = fileName) = some existing →
      uploadAttachment true (.ok atts) post fileName = (false, .ok [existing]) := by
  intro atts post fileName existing h
  simp [uploadAttachment, h]

/-- Witness for C10: `logo.png` already present on the page is returned
as-is, with no POST, even though the POST itself would fail. -/
theorem C10_upload_skips_existing_attachment_witness :
    ([⟨5, "logo.png"⟩, ⟨6, "doc.pdf"⟩] : List Attachment).find?
        (fun att => att.title = "logo.png") = some ⟨5, "logo.png"⟩
    ∧ uploadAttachment true (.ok [⟨5, "logo.png"⟩, ⟨6, "doc.pdf"⟩])
        (.error { message := "network down" }) "logo.png" =
      (false, .ok [⟨5, "logo.png"⟩]) :=
  ⟨rfl,
   C10_upload_skips_existing_attachment [⟨5, "logo.png"⟩, ⟨6, "doc.pdf"⟩]
     (.error { message := "network down" }) "logo.png" ⟨5, "logo.png"⟩ rfl⟩

/-! ### Claim C7: attachment filename canonicalization
(`pageRenderer`, `cleanAttachmentFilename` / `removeAfterExtension`;
`pathUtils.decodeUrlEncoded`) -/

/-- Index of the last `.` in a name (`filename.lastIndexOf('.')`). -/
def lastIndexOfDot (l : List Char) : Option Nat :=
  match l.reverse.findIdx? (fun c => c = '.') with
  | some i => some (l.length - 1 - i)
  | none => none

/-- `removeAfterExtension` (source lines 671-685): split at the last dot and
truncate the extension at its first whitespace or `%`. -/
def removeAfterExtension (filename : String) : String :=
  match lastIndexOfDot filename.data with
  | none => filename
  | some lastDotIdx =>
    let baseName := filename.data.take lastDotIdx
    let extension := filename.data.drop lastDotIdx
    match extension.findIdx? (fun c => isJsWs c ∨ c = '%') with
    | none => String.mk (baseName ++ extension)
    | some endIndex => String.mk (baseName ++ extension.take endIndex)

/-- `[0-9x]+` with the `i` flag, anchored to the end. -/
def sizeDigits (l : List Char) : Bool :=
  ¬l.isEmpty ∧ l.all fun c => c.isDigit ∨ c = 'x' ∨ c = 'X'

/-- `(%3D|\s*=\s*)[0-9x]+` matching the whole input (the alternatives are
disjoint, so regex alternation is a plain disjunction here). -/
def sizeTail (l : List Char) : Bool :=
  (match l with
   | '%' :: '3' :: 'D' :: rest => sizeDigits rest
   | '%' :: '3' :: 'd' :: rest => sizeDigits rest
   | _ => false)
  || (match l.dropWhile isJsWs with
      | '=' :: r => sizeDigits (r.dropWhile isJsWs)
      | _ => false)

/-- `(%20)*(%3D|\s*=\s*)[0-9x]+` matching the whole input (the greedy
`(%20)*` is forced: no tail alternative starts with `%2`). -/
def sizeAnnot : List Char → Bool
  | '%' :: '2' :: '0' :: rest => sizeAnnot rest
  | l => sizeTail l

/-- `.replace(/(%20)*(%3D|\s*=\s*)[0-9x]+$/i, '')`: drop the suffix from the
leftmost position whose remainder matches the anchored pattern. -/
def stripSizeAnnot : List Char → List Char
  | [] => []
  | c :: rest => if sizeAnnot (c :: rest) then [] else c :: stripSizeAnnot rest

/-- A run of exactly `k` hex digits, returning the remainder. -/
def hexRun : Nat → List Char → Option (List Char)
  | 0, l => some l
  | _ + 1, [] => none
  | k + 1, c :: r =>
    if c.isDigit ∨ ('a' ≤ c ∧ c ≤ 'f') ∨ ('A' ≤ c ∧ c ≤ 'F') then hexRun k r else none

/-- The 37-character shape `-hex8-hex4-hex4-hex4-hex12` (case-insensitive),
matching the whole input. -/
def guidShape (l : List Char) : Bool :=
  match l with
  | '-' :: r =>
    match hexRun 8 r with
    | some ('-' :: r2) =>
      match hexRun 4 r2 with
      | some ('-' :: r3) =>
        match hexRun 4 r3 with
        | some ('-' :: r4) =>
          match hexRun 4 r4 with
          | some ('-' :: r5) =>
            match hexRun 12 r5 with
            | some [] => true
            | _ => false
          | _ => false
        | _ => false
      | _ => false
    | _ => false
  | _ => false

/-- The trailing-GUID removal, `.replace` of the anchored case-insensitive
regex `-[0-9a-f]{8}-[0-9a-f]{4}-[0-9a-f]{4}-[0-9a-f]{4}-[0-9a-f]{12}` at the
end of the string: the pattern has fixed
length 37 and is anchored, so at most the final 37 characters can match. -/
def stripGuidSuffix (l : List Char) : List Char :=
  if 37 ≤ l.length ∧ guidShape (l.drop (l.length - 37)) then l.take (l.length - 37)
  else l

/-- One fuel-indexed pass of `String.prototype.replace(/pat/g, rep)` for a
literal pattern `p0 :: ptail`: leftmost, non-overlapping, replacements not
rescanned. -/
def replaceAllGo (p0 : Char) (ptail rep : List Char) : Nat → List Char → List Char
  | 0, l => l
  | _ + 1, [] => []
  | fuel + 1, c :: rest =>
    if (p0 :: ptail).isPrefixOf (c :: rest) then
      rep ++ replaceAllGo p0 ptail rep fuel (rest.drop ptail.length)
    else c :: replaceAllGo p0 ptail rep fuel rest

/-- `s.replace(/LIT/g, rep)` for a literal pattern. -/
def replaceAllL (p0 : Char) (ptail rep l : List Char) : List Char :=
  replaceAllGo p0 ptail rep l.length l

/-- `decodeUrlEncoded` (`src/local/utils/pathUtils.js` lines 10-39): ten
fixed manual replacements, then `decodeURIComponent` keeping the manual
result when decoding throws. -/
def decodeUrlEncoded (text : String) : String :=
  if text = "" then text
  else
    let d0 := text.data
    let d1 := replaceAllL '%' ['2', 'D'] ['-'] d0
    let d2 := replaceAllL '%' ['2', '0'] [' '] d1
    let d3 := replaceAllL '%' ['3', 'A'] [':'] d2
    let d4 := replaceAllL '%' ['2', 'F'] ['/'] d3
    let d5 := replaceAllL '%' ['2', '6'] ['&'] d4
    let d6 := replaceAllL '%' ['3', 'F'] ['?'] d5
    let d7 := replaceAllL '%' ['3', 'D'] ['='] d6
    let d8 := replaceAllL '%' ['2', '5'] ['%'] d7
    let d9 := replaceAllL '%' ['4', '0'] ['@'] d8
    let d10 := replaceAllL '%' ['2', 'B'] ['+'] d9
    match decodeURICompL d10 with
    | some r => String.mk r
    | none => String.mk d10

/-- `cleanAttachmentFilename` (source lines 421-442): truncate export
artifacts after the extension, strip a trailing size annotation, strip a
trailing GUID, URL-decode, trim. -/
def cleanAttachmentFilename (filename : String) : String :=
  if filename = "" then ""
  else
    let f1 := removeAfterExtension filename
    let c1 := String.mk (stripSizeAnnot f1.data)
    let c2 := String.mk (stripGuidSuffix c1.data)
    let c3 := decodeUrlEncoded c2
    jsTrim c3

theorem dropWhile_eq_self_of_all {p : Char → Bool} :
    ∀ {l : List Char}, (∀ c ∈ l, p c = false) → l.dropWhile p = l := by
  intro l h
  cases l with
  | nil => rfl
  | cons c r => simp [List.dropWhile_cons, h c (by simp)]

theorem jsTrimL_eq_self_of_no_ws {l : List Char}
    (h : ∀ c ∈ l, isJsWs c = false) : jsTrimL l = l := by
  unfold jsTrimL
  rw [dropWhile_eq_self_of_all h,
    dropWhile_eq_self_of_all (fun c hc => h c (List.mem_reverse.1 hc)),
    List.reverse_reverse]

theorem removeAfterExtension_eq_self {s : String}
    (h : ∀ c ∈ s.data, isJsWs c = false ∧ ¬(c = '%')) : removeAfterExtension s = s := by
  unfold removeAfterExtension
  cases hdot : lastIndexOfDot s.data with
  | none => rfl
  | some i =>
    have hnone : (s.data.drop i).findIdx? (fun c => isJsWs c ∨ c = '%') = none := by
      apply List.findIdx?_eq_none_iff.mpr
      intro x hx
      have hmem : x ∈ s.data := List.mem_of_mem_drop hx
      simp [(h x hmem).1, (h x hmem).2]
    simp only [hnone, List.take_append_drop]

theorem sizeTail_false {c : Char} {r : List Char} (hcp : ¬(c = '%'))
    (hce : ¬(c = '=')) (hcw : isJsWs c = false) : sizeTail (c :: r) = false := by
  unfold sizeTail
  rw [Bool.or_eq_false_iff]
  constructor
  · split
    · next rest heq =>
      injection heq with h1 _
      exact absurd h1 hcp
    · next rest heq =>
      injection heq with h1 _
      exact absurd h1 hcp
    · rfl
  · rw [List.dropWhile_cons, if_neg (by simp [hcw])]
    split
    · next r2 heq =>
      injection heq with h1 _
      exact absurd h1 hce
    · rfl

theorem sizeAnnot_false :
    ∀ {l : List Char}, (∀ c ∈ l, ¬(c = '%') ∧ ¬(c = '=') ∧ isJsWs c = false) →
      sizeAnnot l = false := by
  intro l h
  cases l with
  | nil => rfl
  | cons c r =>
    have hc := h c (by simp)
    rw [sizeAnnot.eq_def]
    split
    · next rest heq =>
      injection heq with h1 _
      exact absurd h1 hc.1
    · exact sizeTail_false hc.1 hc.2.1 hc.2.2

theorem stripSizeAnnot_eq_self :
    ∀ {l : List Char}, (∀ c ∈ l, ¬(c = '%') ∧ ¬(c = '=') ∧ isJsWs c = false) →
      stripSizeAnnot l = l := by
  intro l h
  induction l with
  | nil => rfl
  | cons c r ih =>
    rw [stripSizeAnnot, if_neg (by simp [sizeAnnot_false h])]
    rw [ih (fun x hx => h x (by simp [hx]))]

theorem stripGuidSuffix_eq_self {l : List Char}
    (h : guidShape (l.drop (l.length - 37)) = false) : stripGuidSuffix l = l := by
  unfold stripGuidSuffix
  rw [if_neg]
  rintro ⟨_, hg⟩
  rw [h] at hg
  exact Bool.noConfusion hg

theorem replaceAllGo_no_head {p0 : Char} {ptail rep : List Char} :
    ∀ (fuel : Nat) (l : List Char), (∀ c ∈ l, ¬(c = p0)) → l.length ≤ fuel →
      replaceAllGo p0 ptail rep fuel l = l := by
  intro fuel
  induction fuel with
  | zero =>
    intro l h hl
    cases l with
    | nil => rfl
    | cons c r => simp at hl
  | succ f ih =>
    intro l h hl
    cases l with
    | nil => rfl
    | cons c r =>
      have hc : ¬((p0 :: ptail).isPrefixOf (c :: r) = true) := by
        show ¬((p0 == c && ptail.isPrefixOf r) = true)
        simp only [Bool.and_eq_true, beq_iff_eq]
        rintro ⟨h1, -⟩
        exact h c (by simp) h1.symm
      rw [replaceAllGo, if_neg hc]
      rw [ih r (fun x hx => h x (by simp [hx])) (by simpa using Nat.le_of_succ_le_succ hl)]

theorem replaceAllL_no_head {p0 : Char} {ptail rep : List Char} {l : List Char}
    (h : ∀ c ∈ l, ¬(c = p0)) : replaceAllL p0 ptail rep l = l :=
  replaceAllGo_no_head l.length l h (Nat.le_refl _)

theorem decodeUrlEncoded_eq_self {s : String} (h : ∀ c ∈ s.data, ¬(c = '%')) :
    decodeUrlEncoded s = s := by
  by_cases hs : s = ""
  · rw [hs]
    rfl
  · unfold decodeUrlEncoded
    rw [if_neg hs]
    simp only [replaceAllL_no_head h]
    rw [decodeURICompL, decodeAux_no_pct _ _ h (Nat.le_refl _)]

theorem clean_chars_fixed {y : String}
    (hc : ∀ c ∈ y.data, ¬(c = '%') ∧ ¬(c = '=') ∧ isJsWs c = false)
    (hguid : guidShape (y.data.drop (y.data.length - 37)) = false) :
    cleanAttachmentFilename y = y := by
  by_cases hy : y = ""
  · rw [hy]
    rfl
  have hmk : String.mk y.data = y := rfl
  have h1 : removeAfterExtension y = y :=
    removeAfterExtension_eq_self (fun c hm => ⟨(hc c hm).2.2, (hc c hm).1⟩)
  have h2 : stripSizeAnnot y.data = y.data := stripSizeAnnot_eq_self hc
  have h3 : stripGuidSuffix y.data = y.data := stripGuidSuffix_eq_self hguid
  have h4 : decodeUrlEncoded y = y := decodeUrlEncoded_eq_self (fun c hm => (hc c hm).1)
  have h5 : jsTrim y = y := by
    unfold jsTrim
    rw [jsTrimL_eq_self_of_no_ws (fun c hm => (hc c hm).2.2), hmk]
  simp only [cleanAttachmentFilename, if_neg hy, h1, h2, hmk, h3, h4, h5]

/-- C7 counterexample: `cleanAttachmentFilename` is not a fixed point on
doubly-encoded size annotations: URL-decoding happens after size stripping,
so `a%253D1x` cleans to `a=1x`, which cleans again to `a`. -/
theorem C7_double_encoded_size_counterexample :
    cleanAttachmentFilename "a%253D1x" = "a=1x"
    ∧ cleanAttachmentFilename (cleanAttachmentFilename "a%253D1x") = "a"
    ∧ cleanAttachmentFilename (cleanAttachmentFilename "a%253D1x") ≠
        cleanAttachmentFilename "a%253D1x" := by
  refine ⟨rfl, rfl, by decide⟩

/-- C7 amended: `cleanAttachmentFilename` is a fixed point on every input
whose cleaned form is free of reintroducible artifacts (no `%`, `=`, or
whitespace characters, and no trailing GUID shape) — in particular on the
cited export-artifact samples `diagram.png%20%3D750x` (cleaning to
`diagram.png`) and `photo-3fa85f64-5717-4562-b3fc-2c963f66afa6.jpg` (whose
mid-name GUID is not at the string's end and is kept) — but not on all
filenames: URL-decoding runs after the size/GUID stripping and can expose a
new trailing size annotation. -/
theorem C7_clean_filename_conditional_fixed_point :
    (∀ y : String,
      (∀ c ∈ (cleanAttachmentFilename y).data,
        ¬(c = '%') ∧ ¬(c = '=') ∧ isJsWs c = false) →
      guidShape ((cleanAttachmentFilename y).data.drop
        ((cleanAttachmentFilename y).data.length - 37)) = false →
      cleanAttachmentFilename (cleanAttachmentFilename y) = cleanAttachmentFilename y)
    ∧ cleanAttachmentFilename (cleanAttachmentFilename "diagram.png%20%3D750x") =
        cleanAttachmentFilename "diagram.png%20%3D750x"
    ∧ cleanAttachmentFilename
          (cleanAttachmentFilename "photo-3fa85f64-5717-4562-b3fc-2c963f66afa6.jpg") =
        cleanAttachmentFilename "photo-3fa85f64-5717-4562-b3fc-2c963f66afa6.jpg" := by
  refine ⟨?_, rfl, rfl⟩
  intro y h1 h2
  exact clean_chars_fixed h1 h2

/-- Witness for C7 at the first cited sample. -/
theorem C7_clean_filename_conditional_fixed_point_witness :
    (∀ c ∈ (cleanAttachmentFilename "diagram.png%20%3D750x").data,
      ¬(c = '%') ∧ ¬(c = '=') ∧ isJsWs c = false)
    ∧ guidShape ((cleanAttachmentFilename "diagram.png%20%3D750x").data.drop
        ((cleanAttachmentFilename "diagram.png%20%3D750x").data.length - 37)) = false
    ∧ cleanAttachmentFilename (cleanAttachmentFilename "diagram.png%20%3D750x") =
        cleanAttachmentFilename "diagram.png%20%3D750x" :=
  ⟨by decide, by decide,
   C7_clean_filename_conditional_fixed_point.1 "diagram.png%20%3D750x"
     (by decide) (by decide)⟩

end A2C
